import Mathlib

/-!
Verification development for the MyCraft voxel-game runtime core.

The definitions below are a shallow embedding of the TypeScript sources:
  * `src/components/game/World.tsx` (chunk store, change log, click handlers),
  * `src/components/game/BlockInteraction.tsx` (interaction/targeting engine),
  * `src/components/game/Player.tsx` (movement/collision resolver),
  * the streaming pass of the alternate `World` component (unnamed source,
    `MAX_CHUNKS_PER_FRAME` rate limiting).

JavaScript `Map`s keyed by coordinate strings are embedded as association
lists with JS-`Map` update semantics (`set` replaces the existing entry in
place, `delete` filters it out); integer world coordinates are `Int`;
continuous positions and timestamps are `ℚ`/`Int`.  `Math.floor(x / 16)`
on integers is `Int` division (Lean's `/` on `Int` is floor division for
the positive divisor 16).
-/

/-- Block data: world coordinate plus block type, mirroring `Block` of
`utils/types` (`{x, y, z, type}`). -/
structure Block where
  x : Int
  y : Int
  z : Int
  type : String
deriving DecidableEq, Repr

/-- Action tag of a logged mutation (`'place' | 'remove'`). -/
inductive ChangeAction where
  | place
  | remove
deriving DecidableEq, Repr

/-- A Change Log entry, mirroring `BlockChange` (`{x, y, z, type, action}`;
a remove entry also carries the type of the removed block, as built by
`{...block, action: 'remove'}`). -/
structure BlockChange where
  x : Int
  y : Int
  z : Int
  type : String
  action : ChangeAction
deriving DecidableEq, Repr

/-- Chunk data: chunk coordinate plus the chunk's block array, mirroring
`ChunkData` (the separate `position` field of the source always duplicates
`x`, `y`, `z`, so it is not repeated here). -/
structure ChunkData where
  x : Int
  y : Int
  z : Int
  blocks : List Block
deriving DecidableEq, Repr

/-- Chunk side length, `CHUNK_SIZE = 16`. -/
def CHUNK_SIZE : Int := 16

/-- Coordinate equality of a map entry against a key, embedding equality of
the string keys produced by `makeBlockKey(x, y, z)`. -/
def coordEq (x y z : Int) (b : Block) : Bool :=
  decide (b.x = x ∧ b.y = y ∧ b.z = z)

/-- JS `Map.set` keyed by block coordinate: replace the entry with the same
key (a JS map holds at most one), otherwise append in insertion order. -/
def mapSet : List Block → Block → List Block
  | [], b => [b]
  | q :: rest, b =>
    if coordEq b.x b.y b.z q then b :: rest else q :: mapSet rest b

/-- JS `Map.delete` keyed by block coordinate. -/
def mapDelete (m : List Block) (x y z : Int) : List Block :=
  m.filter (fun q => !coordEq x y z q)

/-- The `blocksMap` built by `applyChangesToChunk`: insert every block of
the array into a fresh map (`blocks.forEach(b => blocksMap.set(key(b), b))`). -/
def toBlocksMap (blocks : List Block) : List Block :=
  blocks.foldl mapSet []

/-- JS `Map.get` keyed by block coordinate. -/
def lookupBlock (m : List Block) (x y z : Int) : Option Block :=
  m.find? (coordEq x y z)

/-- Whether a change's coordinate falls inside the 16×16×16 footprint of a
chunk, from the bounds test of `applyChangesToChunk`
(`minX = chunkX*CHUNK_SIZE`, `maxX = minX + CHUNK_SIZE - 1`, etc.). -/
def inChunkBounds (chunk : ChunkData) (change : BlockChange) : Bool :=
  CHUNK_SIZE * chunk.x ≤ change.x && change.x ≤ CHUNK_SIZE * chunk.x + (CHUNK_SIZE - 1) &&
  CHUNK_SIZE * chunk.y ≤ change.y && change.y ≤ CHUNK_SIZE * chunk.y + (CHUNK_SIZE - 1) &&
  CHUNK_SIZE * chunk.z ≤ change.z && change.z ≤ CHUNK_SIZE * chunk.z + (CHUNK_SIZE - 1)

/-- One step of the `relevantChanges.forEach` loop of `applyChangesToChunk`:
a remove deletes the key, a place overwrites it. -/
def applyOneChange (m : List Block) (change : BlockChange) : List Block :=
  match change.action with
  | ChangeAction.remove => mapDelete m change.x change.y change.z
  | ChangeAction.place => mapSet m ⟨change.x, change.y, change.z, change.type⟩

/-- `applyChangesToChunk` of `World.tsx`: filter the change list down to the
chunk's footprint, return the chunk unchanged if nothing is relevant,
otherwise rebuild the block array through the coordinate-keyed map. -/
def applyChangesToChunk (chunk : ChunkData) (changesList : List BlockChange) : ChunkData :=
  let relevantChanges := changesList.filter (inChunkBounds chunk)
  if relevantChanges.isEmpty then chunk
  else { chunk with blocks := relevantChanges.foldl applyOneChange (toBlocksMap chunk.blocks) }

/-- The block set of a chunk viewed as a coordinate-keyed map (the view the
renderer and the occupancy checks consume): what a JS `Map` built from the
block array holds at a given coordinate. -/
def blockAt (chunk : ChunkData) (x y z : Int) : Option Block :=
  lookupBlock (toBlocksMap chunk.blocks) x y z

/-- Last change of a list at a coordinate, the change that "wins". -/
def lastChangeAt (L : List BlockChange) (x y z : Int) : Option BlockChange :=
  L.reverse.find? (fun ch => decide (ch.x = x ∧ ch.y = y ∧ ch.z = z))

/-- Effect of a single change on the block stored at its own coordinate. -/
def changeValue (ch : BlockChange) : Option Block :=
  match ch.action with
  | ChangeAction.remove => none
  | ChangeAction.place => some ⟨ch.x, ch.y, ch.z, ch.type⟩

section MapLemmas

lemma lookupBlock_nil (x y z : Int) : lookupBlock [] x y z = none := rfl

lemma lookupBlock_cons (q : Block) (m : List Block) (x y z : Int) :
    lookupBlock (q :: m) x y z =
      if q.x = x ∧ q.y = y ∧ q.z = z then some q else lookupBlock m x y z := by
  simp only [lookupBlock, List.find?, coordEq]
  by_cases h : q.x = x ∧ q.y = y ∧ q.z = z <;> simp [h]

lemma lookup_mapSet (m : List Block) (b : Block) (x y z : Int) :
    lookupBlock (mapSet m b) x y z =
      if b.x = x ∧ b.y = y ∧ b.z = z then some b else lookupBlock m x y z := by
  induction m with
  | nil =>
    simp only [mapSet]
    rw [lookupBlock_cons]
  | cons q rest ih =>
    simp only [mapSet, coordEq]
    by_cases hq : q.x = b.x ∧ q.y = b.y ∧ q.z = b.z
    · rw [if_pos (by simpa using hq)]
      rw [lookupBlock_cons, lookupBlock_cons]
      obtain ⟨e1, e2, e3⟩ := hq
      rw [e1, e2, e3]
      by_cases h : b.x = x ∧ b.y = y ∧ b.z = z <;> simp [h]
    · rw [if_neg (by simpa using hq)]
      rw [lookupBlock_cons, lookupBlock_cons, ih]
      by_cases hqm : q.x = x ∧ q.y = y ∧ q.z = z
      · by_cases hbm : b.x = x ∧ b.y = y ∧ b.z = z
        · exact absurd ⟨hqm.1.trans hbm.1.symm, hqm.2.1.trans hbm.2.1.symm,
            hqm.2.2.trans hbm.2.2.symm⟩ hq
        · simp [hqm, hbm]
      · by_cases hbm : b.x = x ∧ b.y = y ∧ b.z = z <;> simp [hqm, hbm]

lemma lookup_mapDelete (m : List Block) (cx cy cz x y z : Int) :
    lookupBlock (mapDelete m cx cy cz) x y z =
      if cx = x ∧ cy = y ∧ cz = z then none else lookupBlock m x y z := by
  induction m with
  | nil => simp [mapDelete, lookupBlock_nil]
  | cons q rest ih =>
    simp only [mapDelete, List.filter, coordEq] at ih ⊢
    by_cases hq : q.x = cx ∧ q.y = cy ∧ q.z = cz
    · have : (!decide (q.x = cx ∧ q.y = cy ∧ q.z = cz)) = false := by simp [hq]
      rw [this]
      by_cases h : cx = x ∧ cy = y ∧ cz = z
      · rw [ih, if_pos h, if_pos h]
      · rw [ih, if_neg h, if_neg h, lookupBlock_cons]
        have : ¬(q.x = x ∧ q.y = y ∧ q.z = z) := by
          obtain ⟨e1, e2, e3⟩ := hq
          rw [e1, e2, e3]
          exact h
        simp [this]
    · have : (!decide (q.x = cx ∧ q.y = cy ∧ q.z = cz)) = true := by simp [hq]
      rw [this]
      by_cases h : cx = x ∧ cy = y ∧ cz = z
      · rw [lookupBlock_cons, lookupBlock_cons, ih, if_pos h, if_pos h]
        have : ¬(q.x = x ∧ q.y = y ∧ q.z = z) := by
          obtain ⟨e1, e2, e3⟩ := h
          rw [e1, e2, e3] at hq
          exact hq
        simp [this]
      · rw [lookupBlock_cons, lookupBlock_cons, ih, if_neg h, if_neg h]

lemma lookup_applyOneChange (m : List Block) (ch : BlockChange) (x y z : Int) :
    lookupBlock (applyOneChange m ch) x y z =
      if ch.x = x ∧ ch.y = y ∧ ch.z = z then changeValue ch else lookupBlock m x y z := by
  cases hact : ch.action with
  | remove =>
    simp only [applyOneChange, hact, changeValue]
    rw [lookup_mapDelete]
  | place =>
    simp only [applyOneChange, hact, changeValue]
    rw [lookup_mapSet]

end MapLemmas

section ApplyLemmas

lemma lookupBlock_eq_none_iff (m : List Block) (x y z : Int) :
    lookupBlock m x y z = none ↔ ∀ e ∈ m, ¬(e.x = x ∧ e.y = y ∧ e.z = z) := by
  simp [lookupBlock, List.find?_eq_none, coordEq]

lemma lookupBlock_coords (m : List Block) (x y z : Int) (b : Block)
    (h : lookupBlock m x y z = some b) : b.x = x ∧ b.y = y ∧ b.z = z := by
  have := List.find?_some h
  simpa [coordEq] using this

lemma lastChangeAt_nil (x y z : Int) : lastChangeAt [] x y z = none := rfl

lemma lastChangeAt_append (L M : List BlockChange) (x y z : Int) :
    lastChangeAt (L ++ M) x y z = (lastChangeAt M x y z).or (lastChangeAt L x y z) := by
  simp [lastChangeAt, List.reverse_append, List.find?_append]

lemma lastChangeAt_cons (ch : BlockChange) (L : List BlockChange) (x y z : Int) :
    lastChangeAt (ch :: L) x y z =
      (lastChangeAt L x y z).or
        (if ch.x = x ∧ ch.y = y ∧ ch.z = z then some ch else none) := by
  have : ch :: L = [ch] ++ L := rfl
  rw [this, lastChangeAt_append]
  congr 1
  simp only [lastChangeAt, List.reverse_cons, List.reverse_nil, List.nil_append,
    List.find?]
  by_cases h : ch.x = x ∧ ch.y = y ∧ ch.z = z <;> simp [h]

lemma lookup_applyFold (L : List BlockChange) (m : List Block) (x y z : Int) :
    lookupBlock (L.foldl applyOneChange m) x y z =
      match lastChangeAt L x y z with
      | some ch => changeValue ch
      | none => lookupBlock m x y z := by
  induction L generalizing m with
  | nil => simp [lastChangeAt_nil]
  | cons ch L ih =>
    rw [List.foldl_cons, ih, lastChangeAt_cons]
    cases hL : lastChangeAt L x y z with
    | some c => simp [Option.or]
    | none =>
      simp only [Option.or]
      by_cases h : ch.x = x ∧ ch.y = y ∧ ch.z = z
      · rw [if_pos h, lookup_applyOneChange, if_pos h]
      · rw [if_neg h, lookup_applyOneChange, if_neg h]

lemma lookup_foldl_mapSet (m acc : List Block) (x y z : Int) :
    lookupBlock (m.foldl mapSet acc) x y z =
      (m.reverse.find? (coordEq x y z)).or (lookupBlock acc x y z) := by
  induction m generalizing acc with
  | nil => simp
  | cons b rest ih =>
    rw [List.foldl_cons, ih, List.reverse_cons, List.find?_append]
    rw [Option.or_assoc]
    congr 1
    rw [lookup_mapSet]
    simp only [List.find?, coordEq]
    by_cases h : b.x = x ∧ b.y = y ∧ b.z = z <;> simp [h, Option.or]

lemma lookup_toBlocksMap (m : List Block) (x y z : Int) :
    lookupBlock (toBlocksMap m) x y z = m.reverse.find? (coordEq x y z) := by
  rw [toBlocksMap, lookup_foldl_mapSet]
  simp [lookupBlock_nil]

/-- Key uniqueness of a block list: no two entries share a coordinate (the
invariant every JS `Map` value list satisfies). -/
def keysUnique (m : List Block) : Prop :=
  m.Pairwise (fun a b => ¬(a.x = b.x ∧ a.y = b.y ∧ a.z = b.z))

lemma mem_mapSet (m : List Block) (b e : Block) (h : e ∈ mapSet m b) :
    e = b ∨ e ∈ m := by
  induction m with
  | nil => simpa [mapSet] using h
  | cons q rest ih =>
    simp only [mapSet] at h
    by_cases hq : coordEq b.x b.y b.z q
    · rw [if_pos hq] at h
      rcases List.mem_cons.mp h with h | h
      · exact Or.inl h
      · exact Or.inr (List.mem_cons_of_mem _ h)
    · rw [if_neg hq] at h
      rcases List.mem_cons.mp h with h | h
      · exact Or.inr (h ▸ List.mem_cons_self _ _)
      · rcases ih h with h | h
        · exact Or.inl h
        · exact Or.inr (List.mem_cons_of_mem _ h)

lemma keysUnique_mapSet (m : List Block) (b : Block) (h : keysUnique m) :
    keysUnique (mapSet m b) := by
  induction m with
  | nil => simp [mapSet, keysUnique]
  | cons q rest ih =>
    simp only [mapSet]
    rw [keysUnique, List.pairwise_cons] at h
    by_cases hq : coordEq b.x b.y b.z q
    · rw [if_pos hq]
      simp only [coordEq, decide_eq_true_eq] at hq
      refine List.Pairwise.cons ?_ h.2
      intro e he hc
      exact h.1 e he ⟨hq.1.trans hc.1, hq.2.1.trans hc.2.1, hq.2.2.trans hc.2.2⟩
    · rw [if_neg hq]
      simp only [coordEq, decide_eq_true_eq] at hq
      refine List.Pairwise.cons ?_ (ih h.2)
      intro e he hc
      rcases mem_mapSet rest b e he with rfl | he'
      · exact hq hc
      · exact h.1 e he' hc

lemma keysUnique_applyOneChange (m : List Block) (ch : BlockChange)
    (h : keysUnique m) : keysUnique (applyOneChange m ch) := by
  cases hact : ch.action with
  | remove =>
    simp only [applyOneChange, hact]
    exact List.Pairwise.filter _ h
  | place =>
    simp only [applyOneChange, hact]
    exact keysUnique_mapSet m _ h

lemma keysUnique_foldl_mapSet (m acc : List Block) (h : keysUnique acc) :
    keysUnique (m.foldl mapSet acc) := by
  induction m generalizing acc with
  | nil => exact h
  | cons b rest ih => exact ih _ (keysUnique_mapSet acc b h)

lemma keysUnique_toBlocksMap (m : List Block) : keysUnique (toBlocksMap m) :=
  keysUnique_foldl_mapSet m [] List.Pairwise.nil

lemma keysUnique_foldl_applyOneChange (L : List BlockChange) (m : List Block)
    (h : keysUnique m) : keysUnique (L.foldl applyOneChange m) := by
  induction L generalizing m with
  | nil => exact h
  | cons ch rest ih => exact ih _ (keysUnique_applyOneChange m ch h)

lemma last_eq_lookup_of_unique (m : List Block) (x y z : Int) (h : keysUnique m) :
    m.reverse.find? (coordEq x y z) = lookupBlock m x y z := by
  induction m with
  | nil => rfl
  | cons q rest ih =>
    rw [keysUnique, List.pairwise_cons] at h
    rw [List.reverse_cons, List.find?_append, ih h.2, lookupBlock_cons]
    by_cases hq : q.x = x ∧ q.y = y ∧ q.z = z
    · rw [if_pos hq]
      have hnone : lookupBlock rest x y z = none := by
        rw [lookupBlock_eq_none_iff]
        intro e he hc
        exact h.1 e he ⟨hq.1.trans hc.1.symm, hq.2.1.trans hc.2.1.symm,
          hq.2.2.trans hc.2.2.symm⟩
      simp only [List.find?, coordEq]
      rw [hnone]
      simp [hq]
    · rw [if_neg hq]
      simp only [List.find?, coordEq]
      have : decide (q.x = x ∧ q.y = y ∧ q.z = z) = false := by simpa using hq
      rw [this]
      cases lookupBlock rest x y z <;> rfl

lemma applyChangesToChunk_x (c : ChunkData) (L : List BlockChange) :
    (applyChangesToChunk c L).x = c.x := by
  simp only [applyChangesToChunk]
  split <;> rfl

lemma applyChangesToChunk_y (c : ChunkData) (L : List BlockChange) :
    (applyChangesToChunk c L).y = c.y := by
  simp only [applyChangesToChunk]
  split <;> rfl

lemma applyChangesToChunk_z (c : ChunkData) (L : List BlockChange) :
    (applyChangesToChunk c L).z = c.z := by
  simp only [applyChangesToChunk]
  split <;> rfl

lemma inChunkBounds_congr (c c' : ChunkData) (hx : c'.x = c.x) (hy : c'.y = c.y)
    (hz : c'.z = c.z) : inChunkBounds c' = inChunkBounds c := by
  funext ch
  simp [inChunkBounds, hx, hy, hz]

/-- Characterization of `applyChangesToChunk`: the block found at a coordinate
after applying a change list is decided by the last footprint-relevant change
at that coordinate (a place puts its block there, a remove leaves nothing),
and coordinates no relevant change touches keep the original block. -/
lemma blockAt_applyChanges (c : ChunkData) (L : List BlockChange) (x y z : Int) :
    blockAt (applyChangesToChunk c L) x y z =
      match lastChangeAt (L.filter (inChunkBounds c)) x y z with
      | some ch => changeValue ch
      | none => blockAt c x y z := by
  by_cases hemp : (L.filter (inChunkBounds c)).isEmpty
  · have hnil : L.filter (inChunkBounds c) = [] := List.isEmpty_iff.mp hemp
    have happ : applyChangesToChunk c L = c := by
      simp only [applyChangesToChunk, hnil]
      rfl
    rw [happ, hnil, lastChangeAt_nil]
  · have hres : (applyChangesToChunk c L).blocks =
        (L.filter (inChunkBounds c)).foldl applyOneChange (toBlocksMap c.blocks) := by
      simp only [applyChangesToChunk]
      rw [if_neg hemp]
    have huniq : keysUnique ((L.filter (inChunkBounds c)).foldl applyOneChange
        (toBlocksMap c.blocks)) :=
      keysUnique_foldl_applyOneChange _ _ (keysUnique_toBlocksMap _)
    have h1 : blockAt (applyChangesToChunk c L) x y z =
        lookupBlock ((L.filter (inChunkBounds c)).foldl applyOneChange
          (toBlocksMap c.blocks)) x y z := by
      rw [blockAt, lookup_toBlocksMap, hres, last_eq_lookup_of_unique _ _ _ _ huniq]
    rw [h1, lookup_applyFold]
    cases lastChangeAt (L.filter (inChunkBounds c)) x y z <;> rfl

end ApplyLemmas

section LastWriteWins

lemma lastChangeAt_coords (L : List BlockChange) (x y z : Int) (ch : BlockChange)
    (h : lastChangeAt L x y z = some ch) : ch.x = x ∧ ch.y = y ∧ ch.z = z := by
  have := List.find?_some h
  simpa using this

lemma filter_coord_single (m : List Block) (x y z : Int) (b : Block)
    (hu : keysUnique m) (h : lookupBlock m x y z = some b) :
    m.filter (coordEq x y z) = [b] := by
  induction m with
  | nil => exact absurd h (by simp [lookupBlock_nil])
  | cons q rest ih =>
    rw [keysUnique, List.pairwise_cons] at hu
    rw [lookupBlock_cons] at h
    by_cases hq : q.x = x ∧ q.y = y ∧ q.z = z
    · rw [if_pos hq] at h
      have hb : q = b := Option.some.inj h
      have hrest : rest.filter (coordEq x y z) = [] := by
        rw [List.filter_eq_nil_iff]
        intro e he
        simp only [coordEq, decide_eq_true_eq]
        intro hc
        exact hu.1 e he ⟨hq.1.trans hc.1.symm, hq.2.1.trans hc.2.1.symm,
          hq.2.2.trans hc.2.2.symm⟩
      have hqt : coordEq x y z q = true := by simpa [coordEq] using hq
      rw [List.filter_cons_of_pos hqt, hrest, hb]
    · rw [if_neg hq] at h
      have hqt : ¬(coordEq x y z q = true) := by simpa [coordEq] using hq
      rw [List.filter_cons_of_neg hqt]
      exact ih hu.2 h

end LastWriteWins

/-- C3: applying a BlockChange list a second time to a chunk that already has
it applied changes nothing: the block set (queried at every coordinate) of
`applyChangesToChunk(applyChangesToChunk(C, L), L)` equals that of
`applyChangesToChunk(C, L)`; in particular this holds for every freshly
generated chunk `C`. -/
theorem c3_apply_idempotent (c : ChunkData) (L : List BlockChange) (x y z : Int) :
    blockAt (applyChangesToChunk (applyChangesToChunk c L) L) x y z =
      blockAt (applyChangesToChunk c L) x y z := by
  have hco : inChunkBounds (applyChangesToChunk c L) = inChunkBounds c :=
    inChunkBounds_congr c _ (applyChangesToChunk_x c L) (applyChangesToChunk_y c L)
      (applyChangesToChunk_z c L)
  rw [blockAt_applyChanges (applyChangesToChunk c L) L, hco]
  cases hL : lastChangeAt (L.filter (inChunkBounds c)) x y z with
  | none => rfl
  | some ch => rw [blockAt_applyChanges c L, hL]

/-- Chunk and change lists witnessing that C2, read literally, fails: the
list contains a place at (5,5,5) followed later by a remove at (5,5,5), yet
a block remains at (5,5,5) because a still later place re-creates it. -/
def c2chunk : ChunkData := ⟨0, 0, 0, []⟩

/-- Place change at (5,5,5) used by the C2 counterexample. -/
def c2place : BlockChange := ⟨5, 5, 5, "stone", ChangeAction.place⟩

/-- Remove change at (5,5,5) used by the C2 counterexample. -/
def c2remove : BlockChange := ⟨5, 5, 5, "stone", ChangeAction.remove⟩

/-- Change list `[place, remove, place]` at one coordinate. -/
def c2list : List BlockChange := [c2place, c2remove, c2place]

/-- C2 counterexample: `c2list` contains a place at (5,5,5) followed later in
the list by a remove at (5,5,5) (indices 0 and 1), yet applying it with
`applyChangesToChunk` leaves a block at (5,5,5), contradicting the claim that
every such list yields a chunk with no block at that coordinate. -/
theorem c2_counterexample :
    c2list[0]? = some c2place ∧ c2place.action = ChangeAction.place ∧
    c2list[1]? = some c2remove ∧ c2remove.action = ChangeAction.remove ∧
    c2place.x = c2remove.x ∧ c2place.y = c2remove.y ∧ c2place.z = c2remove.z ∧
    blockAt (applyChangesToChunk c2chunk c2list) 5 5 5 =
      some (⟨5, 5, 5, "stone"⟩ : Block) := by
  decide

/-- C2 as amended: last write wins.  If the last footprint-relevant change of
the list at coordinate (x,y,z) is a remove (a place followed later by a
remove with no still-later change there), the resulting chunk has no block at
that coordinate; if it is a place of type T (a remove followed later by a
place with no still-later change there), the resulting chunk holds exactly
one block at that coordinate, of type T. -/
theorem c2_last_write_wins (c : ChunkData) (L : List BlockChange) (x y z : Int)
    (ch : BlockChange)
    (hlast : lastChangeAt (L.filter (inChunkBounds c)) x y z = some ch) :
    (ch.action = ChangeAction.remove →
      blockAt (applyChangesToChunk c L) x y z = none) ∧
    (ch.action = ChangeAction.place →
      blockAt (applyChangesToChunk c L) x y z = some ⟨x, y, z, ch.type⟩ ∧
      (applyChangesToChunk c L).blocks.filter (coordEq x y z) =
        [(⟨x, y, z, ch.type⟩ : Block)]) := by
  obtain ⟨hcx, hcy, hcz⟩ := lastChangeAt_coords _ _ _ _ _ hlast
  have hA : blockAt (applyChangesToChunk c L) x y z = changeValue ch := by
    rw [blockAt_applyChanges c L x y z, hlast]
  have hemp : ¬(L.filter (inChunkBounds c)).isEmpty := by
    intro h0
    rw [List.isEmpty_iff.mp h0, lastChangeAt_nil] at hlast
    exact Option.noConfusion hlast
  have hres : (applyChangesToChunk c L).blocks =
      (L.filter (inChunkBounds c)).foldl applyOneChange (toBlocksMap c.blocks) := by
    simp only [applyChangesToChunk]
    rw [if_neg hemp]
  have huniq : keysUnique ((L.filter (inChunkBounds c)).foldl applyOneChange
      (toBlocksMap c.blocks)) :=
    keysUnique_foldl_applyOneChange _ _ (keysUnique_toBlocksMap _)
  constructor
  · intro hrem
    rw [hA]
    simp [changeValue, hrem]
  · intro hpl
    have hval : changeValue ch = some ⟨x, y, z, ch.type⟩ := by
      simp [changeValue, hpl, hcx, hcy, hcz]
    refine ⟨by rw [hA, hval], ?_⟩
    have hlook : lookupBlock ((L.filter (inChunkBounds c)).foldl applyOneChange
        (toBlocksMap c.blocks)) x y z = some ⟨x, y, z, ch.type⟩ := by
      have h2 : lookupBlock ((L.filter (inChunkBounds c)).foldl applyOneChange
          (toBlocksMap c.blocks)) x y z = changeValue ch := by
        rw [lookup_applyFold, hlast]
      rw [h2, hval]
    rw [hres]
    exact filter_coord_single _ _ _ _ _ huniq hlook

/-- Change list `[remove, place wood]` for the C2 witness. -/
def c2wlist : List BlockChange :=
  [⟨5, 5, 5, "stone", ChangeAction.remove⟩, ⟨5, 5, 5, "wood", ChangeAction.place⟩]

/-- Witness for the amended C2 at a concrete input: after `[remove, place
wood]` at (5,5,5) the chunk holds exactly the placed wood block there. -/
theorem c2_last_write_wins_witness :
    blockAt (applyChangesToChunk c2chunk c2wlist) 5 5 5 =
      some (⟨5, 5, 5, "wood"⟩ : Block) ∧
    (applyChangesToChunk c2chunk c2wlist).blocks.filter (coordEq 5 5 5) =
      [(⟨5, 5, 5, "wood"⟩ : Block)] :=
  (c2_last_write_wins c2chunk c2wlist 5 5 5
    (⟨5, 5, 5, "wood", ChangeAction.place⟩ : BlockChange) (by decide)).2 (by decide)

/-! World streaming state: the `loadedChunks` map of `World.tsx` (a JS `Map`
keyed by `getChunkKey(x,y,z)`), the `changes` log, and the `visibleChunks`
set, together with the two mutations of world state: appending a
`BlockChange` (which triggers the change-application `useEffect`) and
generating a chunk during a streaming pass (`useFrame`, and likewise
`generateInitialChunks`).  The terrain generator is a parameter: the
invariant below holds for every generator. -/

/-- Chunk-coordinate key, embedding `getChunkKey` strings. -/
abbrev ChunkKey := Int × Int × Int

/-- `getChunkCoords` of `World.tsx`: `Math.floor(coord / CHUNK_SIZE)`. -/
def getChunkCoords (x y z : Int) : ChunkKey :=
  (x / CHUNK_SIZE, y / CHUNK_SIZE, z / CHUNK_SIZE)

/-- Chunk key of a change's coordinate (the grouping key of the
change-application effect). -/
def chunkKeyOfChange (ch : BlockChange) : ChunkKey :=
  getChunkCoords ch.x ch.y ch.z

/-- JS `Map.get` on the loaded-chunk store. -/
def storeGet (s : List (ChunkKey × ChunkData)) (k : ChunkKey) : Option ChunkData :=
  (s.find? (fun e => e.1 = k)).map Prod.snd

/-- JS `Map.set` on the loaded-chunk store. -/
def storeSet : List (ChunkKey × ChunkData) → ChunkKey → ChunkData → List (ChunkKey × ChunkData)
  | [], k, v => [(k, v)]
  | e :: rest, k, v => if e.1 = k then (k, v) :: rest else e :: storeSet rest k v

/-- World state mirrored from the `World` component: the `changes` log, the
`loadedChunks.current` map, and the `visibleChunks.current` set. -/
structure WorldState where
  changes : List BlockChange
  loadedChunks : List (ChunkKey × ChunkData)
  visibleChunks : List ChunkKey

/-- A freshly generated chunk at a chunk coordinate
(`terrainGenerator.generateChunk(x, y, z, CHUNK_SIZE)`); the generator's
block list is a parameter of the development. -/
def genChunk (gen : ChunkKey → List Block) (k : ChunkKey) : ChunkData :=
  ⟨k.1, k.2.1, k.2.2, gen k⟩

/-- Keys of the per-chunk grouping map of the change-application effect
(`chunkChanges`), in first-occurrence order. -/
def groupKeys : List BlockChange → List ChunkKey
  | [] => []
  | ch :: rest =>
    chunkKeyOfChange ch :: (groupKeys rest).filter (fun k => k ≠ chunkKeyOfChange ch)

/-- The group of changes mapped to one chunk key (`chunkChanges.get(key)`),
in log order. -/
def groupOf (L : List BlockChange) (k : ChunkKey) : List BlockChange :=
  L.filter (fun ch => chunkKeyOfChange ch = k)

/-- One iteration of the `chunkChanges.forEach` loop of the
change-application effect: patch a loaded chunk in place, or generate a
visible-but-unloaded chunk with its changes applied, or do nothing. -/
def changeEffectStep (gen : ChunkKey → List Block) (logAll : List BlockChange)
    (visible : List ChunkKey) (st : List (ChunkKey × ChunkData)) (k : ChunkKey) :
    List (ChunkKey × ChunkData) :=
  match storeGet st k with
  | some chunk => storeSet st k (applyChangesToChunk chunk (groupOf logAll k))
  | none =>
    if k ∈ visible then
      storeSet st k (applyChangesToChunk (genChunk gen k) (groupOf logAll k))
    else st

/-- The change-application `useEffect` of `World.tsx`: group the full change
log by chunk and update every group's chunk in the loaded store. -/
def applyChangeEffect (gen : ChunkKey → List Block) (logAll : List BlockChange)
    (visible : List ChunkKey) (store : List (ChunkKey × ChunkData)) :
    List (ChunkKey × ChunkData) :=
  (groupKeys logAll).foldl (changeEffectStep gen logAll visible) store

/-- The mutations of world state the invariant ranges over. -/
inductive WorldOp where
  | appendChange (ch : BlockChange)
  | loadChunk (k : ChunkKey)
  | setVisible (v : List ChunkKey)

/-- One world-state mutation: appending a change runs the change effect over
the extended log (as `setChanges` triggers the effect); a streaming load
generates an absent chunk with the current log applied
(`applyChangesToChunk(generateChunk(...), changes)`) and marks it visible;
recomputing visibility only rewrites the visible set (eviction never removes
entries from `loadedChunks`). -/
def stepWorld (gen : ChunkKey → List Block) (s : WorldState) : WorldOp → WorldState
  | WorldOp.appendChange ch =>
    let logAll := s.changes ++ [ch]
    { changes := logAll,
      loadedChunks := applyChangeEffect gen logAll s.visibleChunks s.loadedChunks,
      visibleChunks := s.visibleChunks }
  | WorldOp.loadChunk k =>
    match storeGet s.loadedChunks k with
    | some _ => s
    | none =>
      { changes := s.changes,
        loadedChunks := storeSet s.loadedChunks k
          (applyChangesToChunk (genChunk gen k) s.changes),
        visibleChunks := k :: s.visibleChunks }
  | WorldOp.setVisible v => { s with visibleChunks := v }

/-- Initial world state: the server-provided initial change log, no chunks
materialized yet. -/
def initWorld (initialChanges : List BlockChange) : WorldState :=
  ⟨initialChanges, [], []⟩

/-- A whole session: fold the mutations over the initial state. -/
def runWorld (gen : ChunkKey → List Block) (s : WorldState) (ops : List WorldOp) :
    WorldState :=
  ops.foldl (stepWorld gen) s

/-- What C1 requires of one materialized chunk: it sits at its key and its
block set equals the generated chunk with all footprint-relevant changes of
the log applied in order. -/
def ChunkMatches (gen : ChunkKey → List Block) (logAll : List BlockChange)
    (k : ChunkKey) (chunk : ChunkData) : Prop :=
  chunk.x = k.1 ∧ chunk.y = k.2.1 ∧ chunk.z = k.2.2 ∧
  ∀ x y z, blockAt chunk x y z =
    blockAt (applyChangesToChunk (genChunk gen k) logAll) x y z

/-- The C1 invariant over the whole loaded-chunk store. -/
def StoreInv (gen : ChunkKey → List Block) (s : WorldState) : Prop :=
  ∀ k chunk, storeGet s.loadedChunks k = some chunk → ChunkMatches gen s.changes k chunk

section StoreLemmas

lemma storeGet_nil (k : ChunkKey) : storeGet [] k = none := rfl

lemma storeGet_storeSet (s : List (ChunkKey × ChunkData)) (k : ChunkKey)
    (v : ChunkData) (k' : ChunkKey) :
    storeGet (storeSet s k v) k' = if k' = k then some v else storeGet s k' := by
  induction s with
  | nil =>
    simp only [storeSet, storeGet, List.find?]
    by_cases h : k' = k
    · subst h
      simp
    · have : decide (k = k') = false := by simpa using fun e => h e.symm
      simp only [this]
      rw [if_neg h]
  | cons e rest ih =>
    simp only [storeSet]
    by_cases he : e.1 = k
    · rw [if_pos he]
      simp only [storeGet, List.find?]
      by_cases h : k' = k
      · subst h
        simp
      · have h1 : decide (k = k') = false := by simpa using fun q => h q.symm
        have h2 : decide (e.1 = k') = false := by
          simp only [decide_eq_false_iff_not]
          rw [he]
          exact fun q => h q.symm
        simp only [h1, h2]
        rw [if_neg h]
    · rw [if_neg he]
      simp only [storeGet, List.find?] at ih ⊢
      by_cases h2 : e.1 = k'
      · simp [h2]
        by_cases h : k' = k
        · exact absurd (h2.trans h) he
        · rw [if_neg h]
      · have : decide (e.1 = k') = false := by simpa using h2
        simp only [this]
        exact ih

lemma mem_groupKeys (L : List BlockChange) (k : ChunkKey) :
    k ∈ groupKeys L ↔ ∃ ch ∈ L, chunkKeyOfChange ch = k := by
  induction L with
  | nil => simp [groupKeys]
  | cons ch rest ih =>
    simp only [groupKeys, List.mem_cons, List.mem_filter, ih, List.mem_cons]
    constructor
    · rintro (rfl | ⟨⟨c', hc', hk⟩, _⟩)
      · exact ⟨ch, Or.inl rfl, rfl⟩
      · exact ⟨c', Or.inr hc', hk⟩
    · rintro ⟨c', hc' | hc', hk⟩
      · subst hc'
        exact Or.inl hk.symm
      · by_cases hkc : k = chunkKeyOfChange ch
        · exact Or.inl hkc
        · exact Or.inr ⟨⟨c', hc', hk⟩, by simpa using hkc⟩

lemma groupKeys_nodup (L : List BlockChange) : (groupKeys L).Nodup := by
  induction L with
  | nil => exact List.Pairwise.nil
  | cons ch rest ih =>
    refine List.nodup_cons.mpr ⟨?_, ih.filter _⟩
    intro hmem
    have := (List.mem_filter.mp hmem).2
    simp at this

lemma storeGet_changeEffectStep_ne (gen : ChunkKey → List Block)
    (logAll : List BlockChange) (visible : List ChunkKey)
    (st : List (ChunkKey × ChunkData)) (k0 k : ChunkKey) (hk : k ≠ k0) :
    storeGet (changeEffectStep gen logAll visible st k0) k = storeGet st k := by
  simp only [changeEffectStep]
  cases storeGet st k0 with
  | some chunk =>
    rw [storeGet_storeSet, if_neg hk]
  | none =>
    by_cases hv : k0 ∈ visible
    · rw [if_pos hv, storeGet_storeSet, if_neg hk]
    · rw [if_neg hv]

lemma foldl_changeEffect_get (gen : ChunkKey → List Block)
    (logAll : List BlockChange) (visible : List ChunkKey)
    (klist : List ChunkKey) (hnd : klist.Nodup)
    (st : List (ChunkKey × ChunkData)) (k : ChunkKey) :
    storeGet (klist.foldl (changeEffectStep gen logAll visible) st) k =
      if k ∈ klist then
        match storeGet st k with
        | some chunk => some (applyChangesToChunk chunk (groupOf logAll k))
        | none =>
          if k ∈ visible then
            some (applyChangesToChunk (genChunk gen k) (groupOf logAll k))
          else none
      else storeGet st k := by
  induction klist generalizing st with
  | nil => simp
  | cons k0 rest ih =>
    have hnd' := List.nodup_cons.mp hnd
    rw [List.foldl_cons, ih hnd'.2]
    by_cases hk : k = k0
    · subst hk
      rw [if_neg hnd'.1, if_pos (List.mem_cons_self _ _)]
      simp only [changeEffectStep]
      cases hst : storeGet st k with
      | some chunk =>
        rw [storeGet_storeSet, if_pos rfl]
      | none =>
        by_cases hv : k ∈ visible
        · rw [if_pos hv, storeGet_storeSet, if_pos rfl, if_pos hv]
        · rw [if_neg hv, if_neg hv, hst]
    · have hstep := storeGet_changeEffectStep_ne gen logAll visible st k0 k hk
      by_cases hmem : k ∈ rest
      · rw [if_pos hmem, if_pos (List.mem_cons_of_mem _ hmem), hstep]
      · rw [if_neg hmem, hstep, if_neg (by simp [hk, hmem])]

end StoreLemmas

section InvariantLemmas

lemma inChunkBounds_true_iff (c : ChunkData) (ch : BlockChange) :
    inChunkBounds c ch = true ↔ chunkKeyOfChange ch = (c.x, c.y, c.z) := by
  simp only [inChunkBounds, chunkKeyOfChange, getChunkCoords, CHUNK_SIZE,
    Bool.and_eq_true, decide_eq_true_eq, Prod.mk.injEq]
  omega

lemma filter_inChunkBounds_eq_groupOf (c : ChunkData) (L : List BlockChange) :
    L.filter (inChunkBounds c) = groupOf L (c.x, c.y, c.z) := by
  unfold groupOf
  apply List.filter_congr
  intro ch _
  cases hb : inChunkBounds c ch with
  | true => exact (decide_eq_true ((inChunkBounds_true_iff c ch).mp hb)).symm
  | false =>
    symm
    apply decide_eq_false
    intro hkey
    rw [(inChunkBounds_true_iff c ch).mpr hkey] at hb
    exact Bool.noConfusion hb

lemma groupOf_groupOf (L : List BlockChange) (k : ChunkKey) :
    groupOf (groupOf L k) k = groupOf L k := by
  unfold groupOf
  apply List.filter_eq_self.mpr
  intro a ha
  exact (List.mem_filter.mp ha).2

lemma groupOf_append (L M : List BlockChange) (k : ChunkKey) :
    groupOf (L ++ M) k = groupOf L k ++ groupOf M k :=
  List.filter_append _ _

lemma apply_of_no_relevant (c : ChunkData) (L : List BlockChange)
    (h : L.filter (inChunkBounds c) = []) : applyChangesToChunk c L = c := by
  simp only [applyChangesToChunk, h]
  rfl

lemma chunkMatches_load (gen : ChunkKey → List Block) (logAll : List BlockChange)
    (k : ChunkKey) :
    ChunkMatches gen logAll k (applyChangesToChunk (genChunk gen k) logAll) :=
  ⟨by rw [applyChangesToChunk_x]; rfl, by rw [applyChangesToChunk_y]; rfl,
   by rw [applyChangesToChunk_z]; rfl, fun _ _ _ => rfl⟩

lemma filter_genChunk_eq_groupOf (gen : ChunkKey → List Block) (k : ChunkKey)
    (M : List BlockChange) :
    M.filter (inChunkBounds (genChunk gen k)) = groupOf M k := by
  have h := filter_inChunkBounds_eq_groupOf (genChunk gen k) M
  obtain ⟨k1, k2, k3⟩ := k
  exact h

lemma chunkMatches_gen_group (gen : ChunkKey → List Block) (logAll : List BlockChange)
    (k : ChunkKey) :
    ChunkMatches gen logAll k (applyChangesToChunk (genChunk gen k) (groupOf logAll k)) := by
  refine ⟨by rw [applyChangesToChunk_x]; rfl, by rw [applyChangesToChunk_y]; rfl,
    by rw [applyChangesToChunk_z]; rfl, fun x y z => ?_⟩
  rw [blockAt_applyChanges (genChunk gen k) (groupOf logAll k),
    blockAt_applyChanges (genChunk gen k) logAll,
    filter_genChunk_eq_groupOf, filter_genChunk_eq_groupOf, groupOf_groupOf]

lemma chunkMatches_after_group (gen : ChunkKey → List Block)
    (logAll : List BlockChange) (ch : BlockChange) (k : ChunkKey) (chunk : ChunkData)
    (hm : ChunkMatches gen logAll k chunk) :
    ChunkMatches gen (logAll ++ [ch]) k
      (applyChangesToChunk chunk (groupOf (logAll ++ [ch]) k)) := by
  obtain ⟨hx, hy, hz, hb⟩ := hm
  have hfilc : ∀ M : List BlockChange, M.filter (inChunkBounds chunk) = groupOf M k := by
    intro M
    have h := filter_inChunkBounds_eq_groupOf chunk M
    rw [hx, hy, hz] at h
    obtain ⟨k1, k2, k3⟩ := k
    exact h
  refine ⟨by rw [applyChangesToChunk_x, hx], by rw [applyChangesToChunk_y, hy],
    by rw [applyChangesToChunk_z, hz], fun x y z => ?_⟩
  rw [blockAt_applyChanges chunk (groupOf (logAll ++ [ch]) k), hfilc, groupOf_groupOf,
    blockAt_applyChanges (genChunk gen k) (logAll ++ [ch]), filter_genChunk_eq_groupOf]
  cases hlast : lastChangeAt (groupOf (logAll ++ [ch]) k) x y z with
  | some c => rfl
  | none =>
    have hnone : lastChangeAt (groupOf logAll k) x y z = none := by
      rw [groupOf_append, lastChangeAt_append] at hlast
      cases h2 : lastChangeAt (groupOf [ch] k) x y z with
      | some c2 =>
        rw [h2] at hlast
        exact Option.noConfusion hlast
      | none =>
        rw [h2] at hlast
        exact hlast
    rw [hb x y z, blockAt_applyChanges (genChunk gen k) logAll,
      filter_genChunk_eq_groupOf, hnone]

lemma chunkMatches_no_changes (gen : ChunkKey → List Block)
    (logAll : List BlockChange) (ch : BlockChange) (k : ChunkKey) (chunk : ChunkData)
    (hm : ChunkMatches gen logAll k chunk)
    (hno : ¬∃ c' ∈ logAll ++ [ch], chunkKeyOfChange c' = k) :
    ChunkMatches gen (logAll ++ [ch]) k chunk := by
  obtain ⟨hx, hy, hz, hb⟩ := hm
  have hg2 : groupOf (logAll ++ [ch]) k = [] := by
    rw [groupOf, List.filter_eq_nil_iff]
    intro a ha
    simp only [decide_eq_true_eq]
    exact fun hk => hno ⟨a, ha, hk⟩
  have hg1 : groupOf logAll k = [] := by
    rw [groupOf, List.filter_eq_nil_iff]
    intro a ha
    simp only [decide_eq_true_eq]
    exact fun hk => hno ⟨a, List.mem_append_left _ ha, hk⟩
  have e2 : applyChangesToChunk (genChunk gen k) (logAll ++ [ch]) = genChunk gen k :=
    apply_of_no_relevant _ _ (by rw [filter_genChunk_eq_groupOf, hg2])
  have e1 : applyChangesToChunk (genChunk gen k) logAll = genChunk gen k :=
    apply_of_no_relevant _ _ (by rw [filter_genChunk_eq_groupOf, hg1])
  refine ⟨hx, hy, hz, fun x y z => ?_⟩
  rw [e2, hb x y z, e1]

lemma stepWorld_inv (gen : ChunkKey → List Block) (s : WorldState) (op : WorldOp)
    (hinv : StoreInv gen s) : StoreInv gen (stepWorld gen s op) := by
  cases op with
  | setVisible v => exact fun k chunk h => hinv k chunk h
  | loadChunk k0 =>
    simp only [stepWorld]
    cases hst : storeGet s.loadedChunks k0 with
    | some c0 => exact fun k chunk h => hinv k chunk h
    | none =>
      intro k chunk h
      simp only at h
      rw [storeGet_storeSet] at h
      by_cases hk : k = k0
      · rw [if_pos hk] at h
        subst hk
        have := Option.some.inj h
        subst this
        exact chunkMatches_load gen s.changes k
      · rw [if_neg hk] at h
        exact hinv k chunk h
  | appendChange ch =>
    intro k chunk h
    simp only [stepWorld, applyChangeEffect] at h ⊢
    rw [foldl_changeEffect_get _ _ _ _ (groupKeys_nodup _)] at h
    by_cases hmem : k ∈ groupKeys (s.changes ++ [ch])
    · rw [if_pos hmem] at h
      cases hst : storeGet s.loadedChunks k with
      | some c0 =>
        rw [hst] at h
        have := Option.some.inj h
        subst this
        exact chunkMatches_after_group gen s.changes ch k c0 (hinv k c0 hst)
      | none =>
        rw [hst] at h
        by_cases hv : k ∈ s.visibleChunks
        · rw [if_pos hv] at h
          have := Option.some.inj h
          subst this
          exact chunkMatches_gen_group gen (s.changes ++ [ch]) k
        · rw [if_neg hv] at h
          exact Option.noConfusion h
    · rw [if_neg hmem] at h
      have hno : ¬∃ c' ∈ s.changes ++ [ch], chunkKeyOfChange c' = k := by
        rw [← mem_groupKeys]
        exact hmem
      exact chunkMatches_no_changes gen s.changes ch k chunk (hinv k chunk h) hno

lemma runWorld_inv (gen : ChunkKey → List Block) (s : WorldState) (ops : List WorldOp)
    (hinv : StoreInv gen s) : StoreInv gen (runWorld gen s ops) := by
  induction ops generalizing s with
  | nil => exact hinv
  | cons op rest ih => exact ih _ (stepWorld_inv gen s op hinv)

lemma initWorld_inv (gen : ChunkKey → List Block) (L : List BlockChange) :
    StoreInv gen (initWorld L) := fun _ _ h => Option.noConfusion h

end InvariantLemmas

/-- C1: after any sequence of world-state mutations (appending BlockChanges,
streaming chunk loads/generations, visibility recomputations), every chunk
materialized in the loaded-chunk store sits at its chunk coordinate and its
block set equals the terrain-generated block set for that coordinate with all
Change Log entries falling inside the chunk's 16×16×16 footprint applied in
log order — for every terrain generator and every initial change log. -/
theorem c1_store_invariant (gen : ChunkKey → List Block)
    (initialChanges : List BlockChange) (ops : List WorldOp) (k : ChunkKey)
    (chunk : ChunkData)
    (hget : storeGet (runWorld gen (initWorld initialChanges) ops).loadedChunks k =
      some chunk) :
    chunk.x = k.1 ∧ chunk.y = k.2.1 ∧ chunk.z = k.2.2 ∧
    ∀ x y z, blockAt chunk x y z =
      blockAt (applyChangesToChunk (genChunk gen k)
        (runWorld gen (initWorld initialChanges) ops).changes) x y z :=
  runWorld_inv gen (initWorld initialChanges) ops (initWorld_inv gen initialChanges)
    k chunk hget

/-- Terrain generator used by the C1 witness (empty terrain). -/
def c1gen : ChunkKey → List Block := fun _ => []

/-- Mutation sequence used by the C1 witness: load chunk (0,0,0), then append
a place change inside its footprint. -/
def c1ops : List WorldOp :=
  [WorldOp.loadChunk (0, 0, 0),
   WorldOp.appendChange ⟨1, 2, 3, "stone", ChangeAction.place⟩]

/-- Witness for C1 at a concrete run: a materialized chunk exists at (0,0,0)
and satisfies the invariant. -/
theorem c1_store_invariant_witness :
    ∃ chunk, storeGet (runWorld c1gen (initWorld []) c1ops).loadedChunks (0, 0, 0) =
        some chunk ∧
      (chunk.x = 0 ∧ chunk.y = 0 ∧ chunk.z = 0 ∧
       ∀ x y z, blockAt chunk x y z =
         blockAt (applyChangesToChunk (genChunk c1gen (0, 0, 0))
           (runWorld c1gen (initWorld []) c1ops).changes) x y z) :=
  ⟨_, rfl, c1_store_invariant c1gen [] c1ops (0, 0, 0) _ rfl⟩

/-! Interaction/targeting engine: `BlockInteraction.tsx` and the click
handlers of `World.tsx`.  Continuous positions (`camera.position`,
`Vector3`) are embedded as triples of rationals; `distanceTo` comparisons
against the reach constant 5 are embedded as squared-distance comparisons
against 25, which is equivalent since both sides are nonnegative;
timestamps (`Date.now()` milliseconds) are integers. -/

/-- Continuous 3D position (`Vector3`). -/
abbrev Pos3 := ℚ × ℚ × ℚ

/-- Squared Euclidean distance (`Vector3.distanceTo`, squared). -/
def distSq (p q : Pos3) : ℚ :=
  (p.1 - q.1) * (p.1 - q.1) + (p.2.1 - q.2.1) * (p.2.1 - q.2.1) +
    (p.2.2 - q.2.2) * (p.2.2 - q.2.2)

/-- Center of a block's unit cube: `(block.x + 0.5, block.y + 0.5,
block.z + 0.5)`. -/
def blockCenter (b : Block) : Pos3 :=
  ((b.x : ℚ) + 1/2, (b.y : ℚ) + 1/2, (b.z : ℚ) + 1/2)

/-- The six-entry face-direction table shared by `World.tsx` and
`BlockInteraction.tsx` (`faceDirections`). -/
def faceDirections : List (Int × Int × Int) :=
  [(1, 0, 0), (-1, 0, 0), (0, 1, 0), (0, -1, 0), (0, 0, 1), (0, 0, -1)]

/-- Face-index clamping of the placement handlers:
`Math.min(Math.max(0, face), 5)`. -/
def validFace (face : Int) : Int :=
  min (max 0 face) 5

/-- The table lookup `faceDirections[validFace]` (with the `if (!dir)`
guard of the source embedded as the `Option`). -/
def faceDir (face : Int) : Option (Int × Int × Int) :=
  faceDirections.get? (validFace face).toNat

/-- C10: for every integer face index, also negative or greater than 5, the
clamped index lies in [0, 5], the face-direction lookup is in bounds (returns
a direction), and the resulting placement offset is one of the six
axis-aligned unit normals. -/
theorem c10_face_clamping (face : Int) :
    0 ≤ validFace face ∧ validFace face ≤ 5 ∧
    ∃ d, faceDir face = some d ∧
      (d = (1, 0, 0) ∨ d = (-1, 0, 0) ∨ d = (0, 1, 0) ∨ d = (0, -1, 0) ∨
       d = (0, 0, 1) ∨ d = (0, 0, -1)) := by
  refine ⟨by unfold validFace; omega, by unfold validFace; omega, ?_⟩
  unfold faceDir
  have h5 : (validFace face).toNat ≤ 5 := by unfold validFace; omega
  generalize hgen : (validFace face).toNat = n at h5 ⊢
  interval_cases n <;> exact ⟨_, rfl, by decide⟩

/-- Which interaction is requested (`type: 'break' | 'place'`). -/
inductive InteractionKind where
  | breakBlock
  | placeBlock
deriving DecidableEq, Repr

/-- The action key built by `getActionKey(action, x, y, z)` — the string
`"{action}-{x},{y},{z}"`, which is injective in the action tag and the
coordinates. -/
abbrev ActionKey := InteractionKind × Int × Int × Int

/-- `getActionKey` of `BlockInteraction.tsx`. -/
def getActionKey (action : InteractionKind) (x y z : Int) : ActionKey :=
  (action, x, y, z)

/-- Mutable state of the interaction engine: `lastInteraction.current`
(initially 0) and `lastActionKey.current` (initially the empty string, which
never equals a real key — embedded as `none`). -/
structure BIState where
  lastInteraction : Int
  lastActionKey : Option ActionKey
deriving DecidableEq, Repr

/-- The currently targeted block with its hit face
(`targetedBlock.current`). -/
structure TargetInfo where
  block : Block
  face : Int
deriving DecidableEq, Repr

/-- Per-request inputs of `handleInteraction`: pointer-lock state, the
targeting result, the current time and the viewpoint position. -/
structure InteractionInput where
  pointerLocked : Bool
  targeted : Option TargetInfo
  now : Int
  cameraPos : Pos3
deriving DecidableEq, Repr

/-- A callback invocation emitted on success: `onBreakBlock(x, y, z)` or
`onPlaceBlock(newX, newY, newZ, validFace)`. -/
inductive InteractionCall where
  | breakAt (x y z : Int)
  | placeAt (x y z : Int) (face : Int)
deriving DecidableEq, Repr

/-- `MAX_INTERACTION_DISTANCE = 5` squared. -/
def MAX_DISTANCE_SQ : ℚ := 25

/-- `INTERACTION_COOLDOWN` in milliseconds. -/
def INTERACTION_COOLDOWN : Int := 250

/-- `getDistanceToBlock`, squared: distance from the camera to the block
center. -/
def getDistanceToBlockSq (cameraPos : Pos3) (b : Block) : ℚ :=
  distSq cameraPos (blockCenter b)

/-- `handleInteraction` of `BlockInteraction.tsx`: the unified break/place
request handler.  Returns the updated engine state and the callback call it
emits, if any.  Order of checks follows the source: pointer lock, targeted
block present, block fields valid (always true here: coordinates are
integers by construction), cooldown, reach distance; then
`lastInteraction.current = now` is assigned, and only afterwards the
same-action guard compares `now` against the just-updated
`lastInteraction.current`. -/
def handleInteraction (ty : InteractionKind) (inp : InteractionInput)
    (st : BIState) : BIState × Option InteractionCall :=
  if !inp.pointerLocked then (st, none)
  else
    match inp.targeted with
    | none => (st, none)
    | some t =>
      if inp.now - st.lastInteraction < INTERACTION_COOLDOWN then (st, none)
      else if getDistanceToBlockSq inp.cameraPos t.block > MAX_DISTANCE_SQ then (st, none)
      else
        let st1 : BIState := { st with lastInteraction := inp.now }
        match ty with
        | InteractionKind.breakBlock =>
          let key := getActionKey InteractionKind.breakBlock t.block.x t.block.y t.block.z
          if st1.lastActionKey = some key ∧ inp.now - st1.lastInteraction < 1000 then
            (st1, none)
          else
            ({ st1 with lastActionKey := some key },
             some (InteractionCall.breakAt t.block.x t.block.y t.block.z))
        | InteractionKind.placeBlock =>
          match faceDir t.face with
          | none => (st1, none)
          | some dir =>
            let newX := t.block.x + dir.1
            let newY := t.block.y + dir.2.1
            let newZ := t.block.z + dir.2.2
            let key := getActionKey InteractionKind.placeBlock newX newY newZ
            if st1.lastActionKey = some key ∧ inp.now - st1.lastInteraction < 1000 then
              (st1, none)
            else
              ({ st1 with lastActionKey := some key },
               some (InteractionCall.placeAt newX newY newZ (validFace t.face)))

section InteractionLemmas

lemma handleInteraction_not_locked (ty : InteractionKind) (inp : InteractionInput)
    (st : BIState) (h : inp.pointerLocked = false) :
    handleInteraction ty inp st = (st, none) := by
  simp [handleInteraction, h]

lemma handleInteraction_no_target (ty : InteractionKind) (inp : InteractionInput)
    (st : BIState) (h : inp.targeted = none) :
    handleInteraction ty inp st = (st, none) := by
  cases hp : inp.pointerLocked <;> simp [handleInteraction, h, hp]

lemma handleInteraction_cooldown (ty : InteractionKind) (inp : InteractionInput)
    (st : BIState) (t : TargetInfo) (ht : inp.targeted = some t)
    (h : inp.now - st.lastInteraction < INTERACTION_COOLDOWN) :
    handleInteraction ty inp st = (st, none) := by
  cases hp : inp.pointerLocked <;> simp [handleInteraction, ht, hp, h]

lemma handleInteraction_too_far (ty : InteractionKind) (inp : InteractionInput)
    (st : BIState) (t : TargetInfo) (ht : inp.targeted = some t)
    (hdist : getDistanceToBlockSq inp.cameraPos t.block > MAX_DISTANCE_SQ) :
    handleInteraction ty inp st = (st, none) := by
  by_cases hcool : inp.now - st.lastInteraction < INTERACTION_COOLDOWN
  · exact handleInteraction_cooldown ty inp st t ht hcool
  · cases hp : inp.pointerLocked <;> simp [handleInteraction, ht, hp, hcool, hdist]

lemma handleInteraction_break_guard (inp : InteractionInput) (st : BIState)
    (t : TargetInfo) (ht : inp.targeted = some t)
    (hlock : inp.pointerLocked = true)
    (hcool : ¬inp.now - st.lastInteraction < INTERACTION_COOLDOWN)
    (hdist : ¬getDistanceToBlockSq inp.cameraPos t.block > MAX_DISTANCE_SQ)
    (hkey : st.lastActionKey =
      some (getActionKey InteractionKind.breakBlock t.block.x t.block.y t.block.z)) :
    handleInteraction InteractionKind.breakBlock inp st =
      ({ st with lastInteraction := inp.now }, none) := by
  simp only [handleInteraction, ht, hlock, Bool.not_true, Bool.false_eq_true, if_false]
  rw [if_neg hcool, if_neg hdist, if_pos ⟨hkey, by omega⟩]

lemma handleInteraction_break_success (inp : InteractionInput) (st : BIState)
    (t : TargetInfo) (ht : inp.targeted = some t)
    (hlock : inp.pointerLocked = true)
    (hcool : ¬inp.now - st.lastInteraction < INTERACTION_COOLDOWN)
    (hdist : ¬getDistanceToBlockSq inp.cameraPos t.block > MAX_DISTANCE_SQ)
    (hkey : st.lastActionKey ≠
      some (getActionKey InteractionKind.breakBlock t.block.x t.block.y t.block.z)) :
    handleInteraction InteractionKind.breakBlock inp st =
      (⟨inp.now,
        some (getActionKey InteractionKind.breakBlock t.block.x t.block.y t.block.z)⟩,
       some (InteractionCall.breakAt t.block.x t.block.y t.block.z)) := by
  simp only [handleInteraction, ht, hlock, Bool.not_true, Bool.false_eq_true, if_false]
  rw [if_neg hcool, if_neg hdist, if_neg (by exact fun hc => hkey hc.1)]

lemma handleInteraction_place_guard (inp : InteractionInput) (st : BIState)
    (t : TargetInfo) (dir : Int × Int × Int) (ht : inp.targeted = some t)
    (hfd : faceDir t.face = some dir)
    (hlock : inp.pointerLocked = true)
    (hcool : ¬inp.now - st.lastInteraction < INTERACTION_COOLDOWN)
    (hdist : ¬getDistanceToBlockSq inp.cameraPos t.block > MAX_DISTANCE_SQ)
    (hkey : st.lastActionKey =
      some (getActionKey InteractionKind.placeBlock (t.block.x + dir.1)
        (t.block.y + dir.2.1) (t.block.z + dir.2.2))) :
    handleInteraction InteractionKind.placeBlock inp st =
      ({ st with lastInteraction := inp.now }, none) := by
  simp only [handleInteraction, ht, hlock, Bool.not_true, Bool.false_eq_true, if_false, hfd]
  rw [if_neg hcool, if_neg hdist, if_pos ⟨hkey, by omega⟩]

lemma handleInteraction_place_success (inp : InteractionInput) (st : BIState)
    (t : TargetInfo) (dir : Int × Int × Int) (ht : inp.targeted = some t)
    (hfd : faceDir t.face = some dir)
    (hlock : inp.pointerLocked = true)
    (hcool : ¬inp.now - st.lastInteraction < INTERACTION_COOLDOWN)
    (hdist : ¬getDistanceToBlockSq inp.cameraPos t.block > MAX_DISTANCE_SQ)
    (hkey : st.lastActionKey ≠
      some (getActionKey InteractionKind.placeBlock (t.block.x + dir.1)
        (t.block.y + dir.2.1) (t.block.z + dir.2.2))) :
    handleInteraction InteractionKind.placeBlock inp st =
      (⟨inp.now,
        some (getActionKey InteractionKind.placeBlock (t.block.x + dir.1)
          (t.block.y + dir.2.1) (t.block.z + dir.2.2))⟩,
       some (InteractionCall.placeAt (t.block.x + dir.1) (t.block.y + dir.2.1)
         (t.block.z + dir.2.2) (validFace t.face))) := by
  simp only [handleInteraction, ht, hlock, Bool.not_true, Bool.false_eq_true, if_false, hfd]
  rw [if_neg hcool, if_neg hdist, if_neg (by exact fun hc => hkey hc.1)]

end InteractionLemmas

/-- World-side interaction state of `World.tsx`: the `changes` log, the
`pendingChanges` sync queue, and the `loadedChunks` store the occupancy
check iterates over. -/
structure WInteractState where
  changes : List BlockChange
  pendingChanges : List BlockChange
  loadedChunks : List (ChunkKey × ChunkData)
deriving DecidableEq, Repr

/-- `handleBlockClick` of `World.tsx` (break): reject when the distance from
the camera to the block center exceeds `MAX_BREAK_DISTANCE = 5`, otherwise
append a remove change to the log and the pending queue. -/
def handleBlockClick (cameraPos : Pos3) (block : Block) (face : Int)
    (s : WInteractState) : WInteractState :=
  if distSq cameraPos (blockCenter block) > MAX_DISTANCE_SQ then s
  else
    let change : BlockChange := ⟨block.x, block.y, block.z, block.type, ChangeAction.remove⟩
    { s with changes := s.changes ++ [change],
             pendingChanges := s.pendingChanges ++ [change] }

/-- The `pendingBlockExists` check of `handleBlockRightClick`: some place
change at the coordinate has no remove at the same coordinate later in the
log (`changes.indexOf(removeChange) > changes.indexOf(change)`, with every
entry a distinct object, is exactly "remove strictly later in the list"). -/
def pendingPlaceUnremoved : List BlockChange → Int → Int → Int → Bool
  | [], _, _, _ => false
  | c :: rest, nx, ny, nz =>
    (decide (c.action = ChangeAction.place ∧ c.x = nx ∧ c.y = ny ∧ c.z = nz) &&
      !rest.any (fun r =>
        decide (r.action = ChangeAction.remove ∧ r.x = nx ∧ r.y = ny ∧ r.z = nz))) ||
    pendingPlaceUnremoved rest nx ny nz

/-- `handleBlockRightClick` of `World.tsx` (place): compute the placement
coordinate from the clamped face normal, then append a place change exactly
when the coordinate is free of blocks in every loaded chunk, free of a
pending unremoved place change, and does not intersect the player's occupied
cell or the cell above it.  No reach-distance check appears in this
handler. -/
def handleBlockRightClick (cameraPos : Pos3) (selectedBlock : String)
    (block : Block) (face : Int) (s : WInteractState) : WInteractState :=
  match faceDir face with
  | none => s
  | some dir =>
    let newX := block.x + dir.1
    let newY := block.y + dir.2.1
    let newZ := block.z + dir.2.2
    let blockExists := s.loadedChunks.any (fun e =>
      e.2.blocks.any (fun b => decide (b.x = newX ∧ b.y = newY ∧ b.z = newZ)))
    let pendingBlockExists := pendingPlaceUnremoved s.changes newX newY newZ
    let px := Rat.floor cameraPos.1
    let py := Rat.floor cameraPos.2.1
    let pz := Rat.floor cameraPos.2.2
    let wouldBlockPlayer : Bool :=
      decide ((newX = px ∧ newY = py ∧ newZ = pz) ∨
              (newX = px ∧ newY = py + 1 ∧ newZ = pz))
    if !blockExists && !pendingBlockExists && !wouldBlockPlayer then
      let change : BlockChange := ⟨newX, newY, newZ, selectedBlock, ChangeAction.place⟩
      { s with changes := s.changes ++ [change],
               pendingChanges := s.pendingChanges ++ [change] }
    else s

/-- Spec-side reading of the occupancy check: some materialized chunk holds a
block at the coordinate. -/
def OccupiedInStore (loaded : List (ChunkKey × ChunkData)) (nx ny nz : Int) : Prop :=
  ∃ e ∈ loaded, ∃ b ∈ e.2.blocks, b.x = nx ∧ b.y = ny ∧ b.z = nz

/-- Spec-side reading of the pending check: the log holds a place change at
the coordinate with no remove at the same coordinate later in the log. -/
def PendingPlaceAt : List BlockChange → Int → Int → Int → Prop
  | [], _, _, _ => False
  | c :: rest, nx, ny, nz =>
    (c.action = ChangeAction.place ∧ c.x = nx ∧ c.y = ny ∧ c.z = nz ∧
      ¬∃ r ∈ rest, r.action = ChangeAction.remove ∧ r.x = nx ∧ r.y = ny ∧ r.z = nz) ∨
    PendingPlaceAt rest nx ny nz

/-- Spec-side reading of the player-intersection check: the placement cell is
the viewpoint's floored cell or the cell directly above it. -/
def WouldBlockViewpoint (cameraPos : Pos3) (nx ny nz : Int) : Prop :=
  (nx = Rat.floor cameraPos.1 ∧ ny = Rat.floor cameraPos.2.1 ∧
    nz = Rat.floor cameraPos.2.2) ∨
  (nx = Rat.floor cameraPos.1 ∧ ny = Rat.floor cameraPos.2.1 + 1 ∧
    nz = Rat.floor cameraPos.2.2)

section WorldHandlerLemmas

lemma pendingPlaceUnremoved_iff (L : List BlockChange) (nx ny nz : Int) :
    pendingPlaceUnremoved L nx ny nz = true ↔ PendingPlaceAt L nx ny nz := by
  induction L with
  | nil => simp [pendingPlaceUnremoved, PendingPlaceAt]
  | cons c rest ih =>
    simp only [pendingPlaceUnremoved, PendingPlaceAt, Bool.or_eq_true,
      Bool.and_eq_true, decide_eq_true_eq, Bool.not_eq_true', ih]
    constructor
    · rintro (⟨⟨ha, hx, hy, hz⟩, hno⟩ | hrest)
      · refine Or.inl ⟨ha, hx, hy, hz, ?_⟩
        rw [List.any_eq_false] at hno
        rintro ⟨r, hr, hra, hrx, hry, hrz⟩
        have := hno r hr
        simp only [decide_eq_true_eq] at this
        exact this ⟨hra, hrx, hry, hrz⟩
      · exact Or.inr hrest
    · rintro (⟨ha, hx, hy, hz, hno⟩ | hrest)
      · refine Or.inl ⟨⟨ha, hx, hy, hz⟩, ?_⟩
        rw [List.any_eq_false]
        intro r hr
        simp only [decide_eq_true_eq]
        exact fun hc => hno ⟨r, hr, hc.1, hc.2.1, hc.2.2⟩
      · exact Or.inr hrest

lemma blockExists_iff (loaded : List (ChunkKey × ChunkData)) (nx ny nz : Int) :
    (loaded.any (fun e =>
      e.2.blocks.any (fun b => decide (b.x = nx ∧ b.y = ny ∧ b.z = nz))) = true) ↔
      OccupiedInStore loaded nx ny nz := by
  simp [OccupiedInStore, List.any_eq_true]

lemma handleBlockClick_far (cameraPos : Pos3) (block : Block) (face : Int)
    (s : WInteractState) (h : distSq cameraPos (blockCenter block) > MAX_DISTANCE_SQ) :
    handleBlockClick cameraPos block face s = s := by
  simp [handleBlockClick, h]

lemma handleBlockClick_near (cameraPos : Pos3) (block : Block) (face : Int)
    (s : WInteractState)
    (h : ¬distSq cameraPos (blockCenter block) > MAX_DISTANCE_SQ) :
    handleBlockClick cameraPos block face s =
      { s with
        changes := s.changes ++
          [⟨block.x, block.y, block.z, block.type, ChangeAction.remove⟩],
        pendingChanges := s.pendingChanges ++
          [⟨block.x, block.y, block.z, block.type, ChangeAction.remove⟩] } := by
  simp [handleBlockClick, h]

lemma handleBlockRightClick_appends (cameraPos : Pos3)
    (selectedBlock : String) (block : Block) (face : Int) (s : WInteractState)
    (dir : Int × Int × Int) (hfd : faceDir face = some dir)
    (hocc : ¬OccupiedInStore s.loadedChunks (block.x + dir.1) (block.y + dir.2.1)
      (block.z + dir.2.2))
    (hpend : ¬PendingPlaceAt s.changes (block.x + dir.1) (block.y + dir.2.1)
      (block.z + dir.2.2))
    (hplayer : ¬WouldBlockViewpoint cameraPos (block.x + dir.1) (block.y + dir.2.1)
      (block.z + dir.2.2)) :
    handleBlockRightClick cameraPos selectedBlock block face s =
      { s with
        changes := s.changes ++ [⟨block.x + dir.1, block.y + dir.2.1,
          block.z + dir.2.2, selectedBlock, ChangeAction.place⟩],
        pendingChanges := s.pendingChanges ++ [⟨block.x + dir.1, block.y + dir.2.1,
          block.z + dir.2.2, selectedBlock, ChangeAction.place⟩] } := by
  simp only [handleBlockRightClick, hfd]
  have hb : (s.loadedChunks.any (fun e => e.2.blocks.any (fun b =>
      decide (b.x = block.x + dir.1 ∧ b.y = block.y + dir.2.1 ∧
        b.z = block.z + dir.2.2)))) = false := by
    rw [← Bool.not_eq_true, blockExists_iff]
    exact hocc
  have hp : pendingPlaceUnremoved s.changes (block.x + dir.1) (block.y + dir.2.1)
      (block.z + dir.2.2) = false := by
    rw [← Bool.not_eq_true, pendingPlaceUnremoved_iff]
    exact hpend
  have hw : decide ((block.x + dir.1 = Rat.floor cameraPos.1 ∧
      block.y + dir.2.1 = Rat.floor cameraPos.2.1 ∧
      block.z + dir.2.2 = Rat.floor cameraPos.2.2) ∨
      (block.x + dir.1 = Rat.floor cameraPos.1 ∧
      block.y + dir.2.1 = Rat.floor cameraPos.2.1 + 1 ∧
      block.z + dir.2.2 = Rat.floor cameraPos.2.2)) = false := by
    simpa [WouldBlockViewpoint] using hplayer
  rw [hb, hp, hw]
  rfl

lemma handleBlockRightClick_rejects (cameraPos : Pos3)
    (selectedBlock : String) (block : Block) (face : Int) (s : WInteractState)
    (dir : Int × Int × Int) (hfd : faceDir face = some dir)
    (h : OccupiedInStore s.loadedChunks (block.x + dir.1) (block.y + dir.2.1)
          (block.z + dir.2.2) ∨
        PendingPlaceAt s.changes (block.x + dir.1) (block.y + dir.2.1)
          (block.z + dir.2.2) ∨
        WouldBlockViewpoint cameraPos (block.x + dir.1) (block.y + dir.2.1)
          (block.z + dir.2.2)) :
    handleBlockRightClick cameraPos selectedBlock block face s = s := by
  simp only [handleBlockRightClick, hfd]
  rcases h with hocc | hpend | hplayer
  · have hb : (s.loadedChunks.any (fun e => e.2.blocks.any (fun b =>
        decide (b.x = block.x + dir.1 ∧ b.y = block.y + dir.2.1 ∧
          b.z = block.z + dir.2.2)))) = true := (blockExists_iff _ _ _ _).mpr hocc
    rw [hb]
    rfl
  · have hp : pendingPlaceUnremoved s.changes (block.x + dir.1) (block.y + dir.2.1)
        (block.z + dir.2.2) = true := (pendingPlaceUnremoved_iff _ _ _ _).mpr hpend
    rw [hp]
    cases (s.loadedChunks.any (fun e => e.2.blocks.any (fun b =>
      decide (b.x = block.x + dir.1 ∧ b.y = block.y + dir.2.1 ∧
        b.z = block.z + dir.2.2)))) <;> rfl
  · have hw : decide ((block.x + dir.1 = Rat.floor cameraPos.1 ∧
        block.y + dir.2.1 = Rat.floor cameraPos.2.1 ∧
        block.z + dir.2.2 = Rat.floor cameraPos.2.2) ∨
        (block.x + dir.1 = Rat.floor cameraPos.1 ∧
        block.y + dir.2.1 = Rat.floor cameraPos.2.1 + 1 ∧
        block.z + dir.2.2 = Rat.floor cameraPos.2.2)) = true := by
      simpa [WouldBlockViewpoint] using hplayer
    rw [hw]
    cases (s.loadedChunks.any (fun e => e.2.blocks.any (fun b =>
      decide (b.x = block.x + dir.1 ∧ b.y = block.y + dir.2.1 ∧
        b.z = block.z + dir.2.2)))) <;>
      cases pendingPlaceUnremoved s.changes (block.x + dir.1) (block.y + dir.2.1)
        (block.z + dir.2.2) <;> rfl

end WorldHandlerLemmas

/-- Viewpoint at the origin, used by concrete interaction scenarios. -/
def camOrigin : Pos3 := (0, 0, 0)

/-- A block far outside reach (distance to center ≈ 100.5). -/
def farBlock : Block := ⟨100, 0, 0, "stone"⟩

/-- A nearby block used by placement scenarios. -/
def nearBlock : Block := ⟨0, 5, 0, "grass"⟩

/-- Empty world-side interaction state. -/
def emptyWState : WInteractState := ⟨[], [], []⟩

/-- Initial interaction-engine state (`lastInteraction = 0`, no last key). -/
def baseBIState : BIState := ⟨0, none⟩

/-- C4 counterexample: a place request whose targeted block is at distance
greater than 5 from the viewpoint reaches `handleBlockRightClick`, which has
no reach check, and a place BlockChange is appended to the Change Log and to
the pending sync queue — contradicting the claim that every such place
request is rejected with no append. -/
theorem c4_counterexample :
    distSq camOrigin (blockCenter farBlock) > MAX_DISTANCE_SQ ∧
    (handleBlockRightClick camOrigin "dirt" farBlock 2 emptyWState).changes =
      [⟨100, 1, 0, "dirt", ChangeAction.place⟩] ∧
    (handleBlockRightClick camOrigin "dirt" farBlock 2 emptyWState).pendingChanges =
      [⟨100, 1, 0, "dirt", ChangeAction.place⟩] := by
  have happ := handleBlockRightClick_appends camOrigin "dirt" farBlock 2 emptyWState
    (0, 1, 0) (by decide)
    (by simp [emptyWState, OccupiedInStore])
    (by simp [emptyWState, PendingPlaceAt])
    (by
      simp only [WouldBlockViewpoint, camOrigin, farBlock]
      norm_num [show Rat.floor (0 : ℚ) = 0 from by decide])
  refine ⟨?_, ?_, ?_⟩
  · norm_num [distSq, blockCenter, farBlock, camOrigin, MAX_DISTANCE_SQ]
  · rw [happ]
    rfl
  · rw [happ]
    rfl

/-- C4 as amended: reach is enforced for break requests by
`handleBlockClick` (state unchanged beyond 5 units) and for interaction-
engine requests of either kind by `handleInteraction` (rejected with no
callback and no state change beyond 5 units); the World-level place handler
itself performs no reach check. -/
theorem c4_reach_enforced :
    (∀ (cameraPos : Pos3) (block : Block) (face : Int) (s : WInteractState),
      distSq cameraPos (blockCenter block) > MAX_DISTANCE_SQ →
      handleBlockClick cameraPos block face s = s) ∧
    (∀ (ty : InteractionKind) (inp : InteractionInput) (st : BIState) (t : TargetInfo),
      inp.targeted = some t →
      distSq inp.cameraPos (blockCenter t.block) > MAX_DISTANCE_SQ →
      handleInteraction ty inp st = (st, none)) :=
  ⟨fun cameraPos block face s h => handleBlockClick_far cameraPos block face s h,
   fun ty inp st t ht h => handleInteraction_too_far ty inp st t ht h⟩

/-- Far-target input for the reach witnesses: pointer locked, far block
targeted, cooldown long elapsed. -/
def farInput : InteractionInput := ⟨true, some ⟨farBlock, 2⟩, 10000, camOrigin⟩

/-- Witness for the amended C4 at a concrete input: both reach-enforcing
layers reject the far target without touching state. -/
theorem c4_reach_enforced_witness :
    handleBlockClick camOrigin farBlock 0 emptyWState = emptyWState ∧
    handleInteraction InteractionKind.placeBlock farInput baseBIState =
      (baseBIState, none) :=
  ⟨c4_reach_enforced.1 camOrigin farBlock 0 emptyWState
    (by norm_num [distSq, blockCenter, farBlock, camOrigin, MAX_DISTANCE_SQ]),
   c4_reach_enforced.2 InteractionKind.placeBlock farInput baseBIState ⟨farBlock, 2⟩ rfl
    (by norm_num [farInput, distSq, blockCenter, farBlock, camOrigin, MAX_DISTANCE_SQ])⟩

/-- C5 counterexample: a place request for which every precondition listed by
the claim holds — a target and placement position exist, the cooldown has
elapsed, the placement coordinate is unoccupied, has no pending unremoved
place, and misses the viewpoint's cells — is nevertheless rejected by the
interaction engine with no state change and no emitted placement, because
the targeted block is beyond reach (a condition the claim's "if and only if"
omits). -/
theorem c5_counterexample :
    farInput.targeted = some ⟨farBlock, 2⟩ ∧
    faceDir 2 = some (0, 1, 0) ∧
    farInput.now - baseBIState.lastInteraction ≥ INTERACTION_COOLDOWN ∧
    ¬OccupiedInStore emptyWState.loadedChunks 100 1 0 ∧
    ¬PendingPlaceAt emptyWState.changes 100 1 0 ∧
    ¬WouldBlockViewpoint camOrigin 100 1 0 ∧
    handleInteraction InteractionKind.placeBlock farInput baseBIState =
      (baseBIState, none) := by
  refine ⟨rfl, by decide, by decide,
    by simp [emptyWState, OccupiedInStore],
    by simp [emptyWState, PendingPlaceAt],
    by
      simp only [WouldBlockViewpoint, camOrigin]
      norm_num [show Rat.floor (0 : ℚ) = 0 from by decide], ?_⟩
  exact handleInteraction_too_far InteractionKind.placeBlock farInput baseBIState
    ⟨farBlock, 2⟩ rfl
    (by norm_num [farInput, getDistanceToBlockSq, distSq, blockCenter, farBlock,
      camOrigin, MAX_DISTANCE_SQ])

/-- C5 as amended.  World layer: `handleBlockRightClick` appends the place
BlockChange to the Change Log and the pending queue if and only if the
placement coordinate (target offset by the clamped face normal) is not
occupied in any materialized chunk, not occupied by a pending place change
with no later remove there, and does not equal the viewpoint's floored cell
or the cell above it.  Interaction layer: `handleInteraction` emits the
placement if and only if, additionally, pointer lock is held, the 250 ms
cooldown has elapsed, the targeted block is within reach (distance ≤ 5), and
the placement's action key differs from the immediately preceding action's
key (the anti-double-fire guard, whose time window is dead code). -/
theorem c5_place_conditions :
    (∀ (cameraPos : Pos3) (selectedBlock : String) (block : Block) (face : Int)
      (s : WInteractState) (dir : Int × Int × Int), faceDir face = some dir →
      (((handleBlockRightClick cameraPos selectedBlock block face s).changes =
          s.changes ++ [⟨block.x + dir.1, block.y + dir.2.1, block.z + dir.2.2,
            selectedBlock, ChangeAction.place⟩] ∧
        (handleBlockRightClick cameraPos selectedBlock block face s).pendingChanges =
          s.pendingChanges ++ [⟨block.x + dir.1, block.y + dir.2.1, block.z + dir.2.2,
            selectedBlock, ChangeAction.place⟩]) ↔
        (¬OccupiedInStore s.loadedChunks (block.x + dir.1) (block.y + dir.2.1)
            (block.z + dir.2.2) ∧
         ¬PendingPlaceAt s.changes (block.x + dir.1) (block.y + dir.2.1)
            (block.z + dir.2.2) ∧
         ¬WouldBlockViewpoint cameraPos (block.x + dir.1) (block.y + dir.2.1)
            (block.z + dir.2.2)))) ∧
    (∀ (inp : InteractionInput) (st : BIState) (t : TargetInfo)
      (dir : Int × Int × Int), inp.targeted = some t → faceDir t.face = some dir →
      ((handleInteraction InteractionKind.placeBlock inp st).2 =
          some (InteractionCall.placeAt (t.block.x + dir.1) (t.block.y + dir.2.1)
            (t.block.z + dir.2.2) (validFace t.face)) ↔
        (inp.pointerLocked = true ∧
         inp.now - st.lastInteraction ≥ INTERACTION_COOLDOWN ∧
         getDistanceToBlockSq inp.cameraPos t.block ≤ MAX_DISTANCE_SQ ∧
         st.lastActionKey ≠ some (getActionKey InteractionKind.placeBlock
           (t.block.x + dir.1) (t.block.y + dir.2.1) (t.block.z + dir.2.2))))) := by
  constructor
  · intro cameraPos selectedBlock block face s dir hfd
    constructor
    · intro hap
      by_contra hcond
      have h3 : OccupiedInStore s.loadedChunks (block.x + dir.1) (block.y + dir.2.1)
            (block.z + dir.2.2) ∨
          PendingPlaceAt s.changes (block.x + dir.1) (block.y + dir.2.1)
            (block.z + dir.2.2) ∨
          WouldBlockViewpoint cameraPos (block.x + dir.1) (block.y + dir.2.1)
            (block.z + dir.2.2) := by
        by_contra hno
        push_neg at hno
        exact hcond ⟨hno.1, hno.2.1, hno.2.2⟩
      rw [handleBlockRightClick_rejects cameraPos selectedBlock block face s dir hfd h3]
        at hap
      have := hap.1
      simp at this
    · rintro ⟨h1, h2, h3⟩
      rw [handleBlockRightClick_appends cameraPos selectedBlock block face s dir hfd
        h1 h2 h3]
      exact ⟨rfl, rfl⟩
  · intro inp st t dir ht hfd
    constructor
    · intro hout
      by_cases hlock : inp.pointerLocked = true
      · by_cases hcool : inp.now - st.lastInteraction < INTERACTION_COOLDOWN
        · rw [handleInteraction_cooldown _ inp st t ht hcool] at hout
          exact Option.noConfusion hout
        · by_cases hdist : getDistanceToBlockSq inp.cameraPos t.block > MAX_DISTANCE_SQ
          · rw [handleInteraction_too_far _ inp st t ht hdist] at hout
            exact Option.noConfusion hout
          · by_cases hkey : st.lastActionKey = some (getActionKey
                InteractionKind.placeBlock (t.block.x + dir.1) (t.block.y + dir.2.1)
                (t.block.z + dir.2.2))
            · rw [handleInteraction_place_guard inp st t dir ht hfd hlock hcool hdist
                hkey] at hout
              exact Option.noConfusion hout
            · exact ⟨hlock, by omega, by exact not_lt.mp hdist, hkey⟩
      · rw [handleInteraction_not_locked _ inp st (Bool.not_eq_true _ ▸ hlock)] at hout
        exact Option.noConfusion hout
    · rintro ⟨hlock, hcool, hdist, hkey⟩
      rw [handleInteraction_place_success inp st t dir ht hfd hlock (by omega)
        (not_lt.mpr hdist) hkey]

/-- Witness for the amended C5 at a concrete input: placing "dirt" against
the top face of a free nearby block appends exactly the place change. -/
theorem c5_place_conditions_witness :
    (handleBlockRightClick camOrigin "dirt" nearBlock 2 emptyWState).changes =
      emptyWState.changes ++ [⟨0, 6, 0, "dirt", ChangeAction.place⟩] ∧
    (handleBlockRightClick camOrigin "dirt" nearBlock 2 emptyWState).pendingChanges =
      emptyWState.pendingChanges ++ [⟨0, 6, 0, "dirt", ChangeAction.place⟩] :=
  (c5_place_conditions.1 camOrigin "dirt" nearBlock 2 emptyWState (0, 1, 0)
    (by decide)).mpr
    ⟨by simp [emptyWState, OccupiedInStore],
     by simp [emptyWState, PendingPlaceAt],
     by
       simp only [WouldBlockViewpoint, camOrigin, nearBlock]
       norm_num [show Rat.floor (0 : ℚ) = 0 from by decide]⟩

/-- Target used by the C6 scenario: the block at (1,2,3), within reach of
the origin viewpoint. -/
def c6target : TargetInfo := ⟨⟨1, 2, 3, "stone"⟩, 2⟩

/-- First break request on (1,2,3) at t = 10000 ms. -/
def c6firstInput : InteractionInput := ⟨true, some c6target, 10000, camOrigin⟩

/-- Second break request on the same coordinate two full seconds later. -/
def c6secondInput : InteractionInput := ⟨true, some c6target, 12000, camOrigin⟩

/-- C6, evaluated at the failing input.  The first break on (1,2,3) succeeds
and records the action key.  The second break on the same coordinate comes
2000 ms later — more than 1 second after the prior action on that
coordinate, so the claim says the anti-double-fire guard must not reject
it — yet the code rejects it: `lastInteraction.current = now` is assigned
before the guard, so the guard's `now - lastInteraction.current < 1000` test
compares `now` with itself and holds at every elapsed time. -/
theorem c6_guard_rejects_after_one_second :
    c6secondInput.now - c6firstInput.now = 2000 ∧ (1000 : Int) < 2000 ∧
    handleInteraction InteractionKind.breakBlock c6firstInput baseBIState =
      (⟨10000, some (getActionKey InteractionKind.breakBlock 1 2 3)⟩,
       some (InteractionCall.breakAt 1 2 3)) ∧
    handleInteraction InteractionKind.breakBlock c6secondInput
        ⟨10000, some (getActionKey InteractionKind.breakBlock 1 2 3)⟩ =
      (⟨12000, some (getActionKey InteractionKind.breakBlock 1 2 3)⟩, none) := by
  refine ⟨rfl, by decide, ?_, ?_⟩
  · exact handleInteraction_break_success c6firstInput baseBIState c6target rfl rfl
      (by decide)
      (by norm_num [c6firstInput, getDistanceToBlockSq, distSq, blockCenter,
        c6target, camOrigin, MAX_DISTANCE_SQ])
      (by decide)
  · exact handleInteraction_break_guard c6secondInput
      ⟨10000, some (getActionKey InteractionKind.breakBlock 1 2 3)⟩ c6target rfl rfl
      (by decide)
      (by norm_num [c6secondInput, getDistanceToBlockSq, distSq, blockCenter,
        c6target, camOrigin, MAX_DISTANCE_SQ])
      (by decide)

/-! Targeting: the per-frame raycast processing of `BlockInteraction.tsx`
(`useFrame`), with `findValidIntersection`/`getBlockFromIntersection` of the
standalone raycast module sharing the same structure.  A three.js
`Intersection` is embedded with the fields the code reads: the hit object's
`userData` (and its parent's), `instanceId`, `faceIndex`, the `face`-as-
number fallback the code probes (`typeof i.face === 'number'`), and the raw
ray-hit distance.  The JS stable ascending `sort((a,b) => a.distance -
b.distance)` is embedded as a stable insertion sort, which computes the same
list. -/

/-- The `userData` fields the block extraction reads. -/
structure RayObjData where
  block : Option Block
  blocks : Option (List Block)
deriving DecidableEq, Repr

/-- A hit object: its own `userData` and its parent's, when present. -/
structure RayObject where
  userData : RayObjData
  parent : Option RayObjData
deriving DecidableEq, Repr

/-- A raycast intersection record. -/
structure Intersection where
  object : RayObject
  instanceId : Option Nat
  faceIndex : Option Int
  faceNumber : Option Int
  distance : ℚ
deriving DecidableEq, Repr

/-- One level of `extractBlockFromIntersection`: direct `userData.block`, or
`userData.blocks[instanceId]` when the instance id is in bounds. -/
def extractFromData (d : RayObjData) (iid : Option Nat) : Option Block :=
  match d.block with
  | some b => some b
  | none =>
    match d.blocks, iid with
    | some arr, some n => if n < arr.length then arr[n]? else none
    | _, _ => none

/-- `extractBlockFromIntersection`: try the object's own `userData`, then the
parent's. -/
def extractBlockFromIntersection (i : Intersection) : Option Block :=
  match extractFromData i.object.userData i.instanceId with
  | some b => some b
  | none =>
    match i.object.parent with
    | some pd => extractFromData pd i.instanceId
    | none => none

/-- The filter of the targeting loop: an intersection is considered when it
carries a face identifier and its raw ray-hit distance is within
`MAX_INTERACTION_DISTANCE`. -/
def validIntersectionsOf (l : List Intersection) : List Intersection :=
  l.filter (fun i =>
    (i.faceIndex.isSome || i.faceNumber.isSome) && decide (i.distance ≤ 5))

/-- Stable ascending insertion of one intersection by raw ray distance. -/
def insertByDistance (x : Intersection) : List Intersection → List Intersection
  | [] => [x]
  | y :: rest =>
    if decide (y.distance ≤ x.distance) then y :: insertByDistance x rest
    else x :: y :: rest

/-- `validIntersections.sort((a, b) => a.distance - b.distance)`: stable
ascending sort by raw ray-hit distance. -/
def sortByRayDistance (l : List Intersection) : List Intersection :=
  l.foldl (fun acc x => insertByDistance x acc) []

/-- Face number derived from the intersection
(`Math.floor(faceIndex / 2)`, falling back to the `face` property, else 0). -/
def faceNumOf (i : Intersection) : Int :=
  match i.faceIndex with
  | some fi => fi / 2
  | none =>
    match i.faceNumber with
    | some f => f / 2
    | none => 0

/-- The scan of the sorted candidate list: take the first intersection whose
block metadata resolves and whose true camera-to-block-center distance is
within reach; candidates without resolvable metadata, or resolving to a
block whose center is out of range, are skipped. -/
def findTarget (cameraPos : Pos3) : List Intersection → Option (Block × Int)
  | [] => none
  | i :: rest =>
    match extractBlockFromIntersection i with
    | none => findTarget cameraPos rest
    | some b =>
      if distSq cameraPos (blockCenter b) ≤ MAX_DISTANCE_SQ then
        some (b, validFace (faceNumOf i))
      else findTarget cameraPos rest

/-- The whole per-frame targeting pass: filter, sort by raw ray distance,
scan for the first acceptable candidate. -/
def updateTargeting (cameraPos : Pos3) (intersects : List Intersection) :
    Option (Block × Int) :=
  findTarget cameraPos (sortByRayDistance (validIntersectionsOf intersects))

section TargetingLemmas

lemma findTarget_spec (cameraPos : Pos3) (l : List Intersection) (b : Block) (f : Int)
    (h : findTarget cameraPos l = some (b, f)) :
    ∃ pre i post, l = pre ++ i :: post ∧
      (∀ j ∈ pre, extractBlockFromIntersection j = none ∨
        ∃ bj, extractBlockFromIntersection j = some bj ∧
          distSq cameraPos (blockCenter bj) > MAX_DISTANCE_SQ) ∧
      extractBlockFromIntersection i = some b ∧
      distSq cameraPos (blockCenter b) ≤ MAX_DISTANCE_SQ ∧
      f = validFace (faceNumOf i) := by
  induction l with
  | nil => exact Option.noConfusion h
  | cons i rest ih =>
    cases hext : extractBlockFromIntersection i with
    | none =>
      simp only [findTarget, hext] at h
      obtain ⟨pre, i', post, hsplit, hpre, hi⟩ := ih h
      exact ⟨i :: pre, i', post, by rw [hsplit]; rfl,
        fun j hj => by
          rcases List.mem_cons.mp hj with rfl | hj'
          · exact Or.inl hext
          · exact hpre j hj', hi⟩
    | some b0 =>
      simp only [findTarget, hext] at h
      by_cases hd : distSq cameraPos (blockCenter b0) ≤ MAX_DISTANCE_SQ
      · rw [if_pos hd] at h
        obtain ⟨rfl, rfl⟩ : b0 = b ∧ validFace (faceNumOf i) = f := by
          have := Option.some.inj h
          exact ⟨congrArg Prod.fst this, congrArg Prod.snd this⟩
        exact ⟨[], i, rest, rfl, fun j hj => absurd hj (List.not_mem_nil j),
          hext, hd, rfl⟩
      · rw [if_neg hd] at h
        obtain ⟨pre, i', post, hsplit, hpre, hi⟩ := ih h
        exact ⟨i :: pre, i', post, by rw [hsplit]; rfl,
          fun j hj => by
            rcases List.mem_cons.mp hj with rfl | hj'
            · exact Or.inr ⟨b0, hext, not_le.mp hd⟩
            · exact hpre j hj', hi⟩

end TargetingLemmas

/-- Block with center strictly within reach but farther from the viewpoint
than `c7blockB`, hit first by the ray. -/
def c7blockA : Block := ⟨3, 3, 0, "stone"⟩

/-- Block whose center is much closer to the viewpoint, hit second. -/
def c7blockB : Block := ⟨0, 0, 0, "stone"⟩

/-- Intersection of the ray with `c7blockA` at raw ray distance 1. -/
def c7hitA : Intersection := ⟨⟨⟨some c7blockA, none⟩, none⟩, none, some 4, none, 1⟩

/-- Intersection of the ray with `c7blockB` at raw ray distance 2. -/
def c7hitB : Intersection := ⟨⟨⟨some c7blockB, none⟩, none⟩, none, some 4, none, 2⟩

lemma c7run : updateTargeting camOrigin [c7hitA, c7hitB] = some (c7blockA, 2) := by
  have hsort : sortByRayDistance (validIntersectionsOf [c7hitA, c7hitB]) =
      [c7hitA, c7hitB] := by decide
  rw [updateTargeting, hsort]
  have he : extractBlockFromIntersection c7hitA = some c7blockA := by decide
  have hd : distSq camOrigin (blockCenter c7blockA) ≤ MAX_DISTANCE_SQ := by
    norm_num [distSq, blockCenter, camOrigin, c7blockA, MAX_DISTANCE_SQ]
  simp only [findTarget, he]
  rw [if_pos hd]
  decide

/-- C7 counterexample: with two eligible candidates the engine returns the
one hit first by the ray (`c7blockA`), although `c7blockB` is a candidate
with resolvable metadata, within reach, and strictly closer to the viewpoint
by true block-center distance — so the target is not selected by true
distance from the viewpoint to the block center. -/
theorem c7_counterexample :
    updateTargeting camOrigin [c7hitA, c7hitB] = some (c7blockA, 2) ∧
    c7hitB ∈ validIntersectionsOf [c7hitA, c7hitB] ∧
    extractBlockFromIntersection c7hitB = some c7blockB ∧
    distSq camOrigin (blockCenter c7blockB) ≤ MAX_DISTANCE_SQ ∧
    distSq camOrigin (blockCenter c7blockB) < distSq camOrigin (blockCenter c7blockA) := by
  refine ⟨c7run, by decide, by decide, ?_, ?_⟩
  · norm_num [distSq, blockCenter, camOrigin, c7blockB, MAX_DISTANCE_SQ]
  · norm_num [distSq, blockCenter, camOrigin, c7blockA, c7blockB]

/-- C7 as amended: candidates are ordered by raw ray-hit distance, and the
targeted block is the first candidate in that order whose block metadata
resolves and whose true viewpoint-to-block-center distance is within reach;
the true center distance serves as a range filter, not as the selection
order, and a candidate lacking resolvable block-coordinate metadata never
becomes the target (the selected block always comes out of a resolvable
candidate). -/
theorem c7_targeting_selection (cameraPos : Pos3) (l : List Intersection)
    (b : Block) (f : Int) (h : updateTargeting cameraPos l = some (b, f)) :
    ∃ pre i post,
      sortByRayDistance (validIntersectionsOf l) = pre ++ i :: post ∧
      (∀ j ∈ pre, extractBlockFromIntersection j = none ∨
        ∃ bj, extractBlockFromIntersection j = some bj ∧
          distSq cameraPos (blockCenter bj) > MAX_DISTANCE_SQ) ∧
      extractBlockFromIntersection i = some b ∧
      distSq cameraPos (blockCenter b) ≤ MAX_DISTANCE_SQ ∧
      f = validFace (faceNumOf i) :=
  findTarget_spec cameraPos _ b f h

/-- Witness for the amended C7 at the concrete two-candidate scene. -/
theorem c7_targeting_selection_witness :
    ∃ pre i post,
      sortByRayDistance (validIntersectionsOf [c7hitA, c7hitB]) = pre ++ i :: post ∧
      (∀ j ∈ pre, extractBlockFromIntersection j = none ∨
        ∃ bj, extractBlockFromIntersection j = some bj ∧
          distSq camOrigin (blockCenter bj) > MAX_DISTANCE_SQ) ∧
      extractBlockFromIntersection i = some c7blockA ∧
      distSq camOrigin (blockCenter c7blockA) ≤ MAX_DISTANCE_SQ ∧
      (2 : Int) = validFace (faceNumOf i) :=
  c7_targeting_selection camOrigin [c7hitA, c7hitB] c7blockA 2 c7run

/-! Streaming rate limiting: the chunk-loading `useFrame` pass of the
alternate `World` component (unnamed source), which walks offsets
x ∈ [-3,3], y ∈ [-1,3], z ∈ [-3,3] around the player chunk, skips loaded or
out-of-radius coordinates, and generates at most `MAX_CHUNKS_PER_FRAME`
chunks per pass.  The `break` statements only cut short iterations whose
body would do nothing more, so they are embedded as the budget test at the
head of the per-offset step. -/

/-- `RENDER_DISTANCE = 3` chunks in each direction. -/
def RENDER_DISTANCE : Int := 3

/-- `MAX_CHUNKS_PER_FRAME = 3`: the per-pass generation budget. -/
def MAX_CHUNKS_PER_FRAME : Nat := 3

/-- The offsets the triple loop visits, in loop order. -/
def streamOffsets : List (Int × Int × Int) :=
  (List.range 7).bind (fun xi =>
    (List.range 5).bind (fun yi =>
      (List.range 7).map (fun zi => ((xi : Int) - 3, (yi : Int) - 1, (zi : Int) - 3))))

/-- State threaded through one streaming pass: the `chunksToProcess`
counter, the `loadedChunks` set, and the `newChunks` accumulator (tracked by
chunk coordinate — the generated block data is irrelevant to the rate
limit). -/
structure StreamState where
  chunksToProcess : Nat
  loaded : List ChunkKey
  newChunks : List ChunkKey
deriving DecidableEq, Repr

/-- One iteration of the triple loop: stop when the budget is reached, skip
coordinates already loaded, skip offsets outside the Euclidean radius
(`Math.sqrt(x² + y² + z²) > RENDER_DISTANCE`, squared here), otherwise
generate the chunk, mark it loaded and count it. -/
def streamStep (playerChunk : ChunkKey) (st : StreamState)
    (off : Int × Int × Int) : StreamState :=
  if st.chunksToProcess ≥ MAX_CHUNKS_PER_FRAME then st
  else
    let ck : ChunkKey := (playerChunk.1 + off.1, playerChunk.2.1 + off.2.1,
      playerChunk.2.2 + off.2.2)
    if ck ∈ st.loaded then st
    else if off.1 * off.1 + off.2.1 * off.2.1 + off.2.2 * off.2.2 >
        RENDER_DISTANCE * RENDER_DISTANCE then st
    else
      { chunksToProcess := st.chunksToProcess + 1,
        loaded := st.loaded ++ [ck],
        newChunks := st.newChunks ++ [ck] }

/-- One whole streaming pass after a viewpoint move. -/
def streamingPass (playerChunk : ChunkKey) (loaded : List ChunkKey) : StreamState :=
  streamOffsets.foldl (streamStep playerChunk) ⟨0, loaded, []⟩

section StreamingLemmas

lemma streamStep_inv (playerChunk : ChunkKey) (loaded0 : List ChunkKey)
    (st : StreamState) (off : Int × Int × Int)
    (h : st.newChunks.length = st.chunksToProcess ∧
      st.chunksToProcess ≤ MAX_CHUNKS_PER_FRAME ∧
      ∀ ck, ck ∈ st.loaded ↔ ck ∈ loaded0 ∨ ck ∈ st.newChunks) :
    (streamStep playerChunk st off).newChunks.length =
        (streamStep playerChunk st off).chunksToProcess ∧
      (streamStep playerChunk st off).chunksToProcess ≤ MAX_CHUNKS_PER_FRAME ∧
      ∀ ck, ck ∈ (streamStep playerChunk st off).loaded ↔
        ck ∈ loaded0 ∨ ck ∈ (streamStep playerChunk st off).newChunks := by
  obtain ⟨hlen, hbound, hmem⟩ := h
  unfold streamStep
  by_cases hfull : st.chunksToProcess ≥ MAX_CHUNKS_PER_FRAME
  · rw [if_pos hfull]
    exact ⟨hlen, hbound, hmem⟩
  · rw [if_neg hfull]
    by_cases hload : (playerChunk.1 + off.1, playerChunk.2.1 + off.2.1,
        playerChunk.2.2 + off.2.2) ∈ st.loaded
    · rw [if_pos hload]
      exact ⟨hlen, hbound, hmem⟩
    · rw [if_neg hload]
      by_cases hdist : off.1 * off.1 + off.2.1 * off.2.1 + off.2.2 * off.2.2 >
          RENDER_DISTANCE * RENDER_DISTANCE
      · rw [if_pos hdist]
        exact ⟨hlen, hbound, hmem⟩
      · rw [if_neg hdist]
        refine ⟨by simp [hlen], ?_, fun ck => ?_⟩
        · show st.chunksToProcess + 1 ≤ MAX_CHUNKS_PER_FRAME
          simp only [MAX_CHUNKS_PER_FRAME] at hfull ⊢
          omega
        simp only [List.mem_append, List.mem_singleton, hmem ck]
        tauto

lemma streamFold_inv (playerChunk : ChunkKey) (loaded0 : List ChunkKey)
    (offs : List (Int × Int × Int)) (st : StreamState)
    (h : st.newChunks.length = st.chunksToProcess ∧
      st.chunksToProcess ≤ MAX_CHUNKS_PER_FRAME ∧
      ∀ ck, ck ∈ st.loaded ↔ ck ∈ loaded0 ∨ ck ∈ st.newChunks) :
    (offs.foldl (streamStep playerChunk) st).newChunks.length =
        (offs.foldl (streamStep playerChunk) st).chunksToProcess ∧
      (offs.foldl (streamStep playerChunk) st).chunksToProcess ≤ MAX_CHUNKS_PER_FRAME ∧
      ∀ ck, ck ∈ (offs.foldl (streamStep playerChunk) st).loaded ↔
        ck ∈ loaded0 ∨ ck ∈ (offs.foldl (streamStep playerChunk) st).newChunks := by
  induction offs generalizing st with
  | nil => exact h
  | cons off rest ih =>
    exact ih _ (streamStep_inv playerChunk loaded0 st off h)

end StreamingLemmas

/-- C8: one streaming pass generates at most `MAX_CHUNKS_PER_FRAME = 3`
chunks, and the loaded set after the pass is exactly the previous loaded set
plus the chunks generated this pass — so every desired chunk coordinate the
budget cut off stays unloaded and is picked up by a later pass (deferred),
for every player chunk and every prior loaded set. -/
theorem c8_rate_limited (playerChunk : ChunkKey) (loaded : List ChunkKey) :
    (streamingPass playerChunk loaded).newChunks.length ≤ MAX_CHUNKS_PER_FRAME ∧
    ∀ ck, ck ∈ (streamingPass playerChunk loaded).loaded ↔
      ck ∈ loaded ∨ ck ∈ (streamingPass playerChunk loaded).newChunks := by
  have h := streamFold_inv playerChunk loaded streamOffsets ⟨0, loaded, []⟩
    ⟨rfl, Nat.zero_le _, fun ck => by simp⟩
  exact ⟨h.1 ▸ h.2.1, h.2.2⟩

/-! Movement/collision resolver: the vertical dynamics of `Player.tsx`'s
`useFrame` for a viewpoint over terrain of constant height, with no movement
keys held and no jump request (so the horizontal position, and hence the
terrain height under the player, never changes).  Each tick runs the
gravity/grounding branch and then applies the vertical displacement
`camera.position.y += velocity.current.y`. -/

/-- `GRAVITY = 30` of `Player.tsx`. -/
def GRAVITY : ℚ := 30

/-- The player-height offset added to the terrain height (`1.8` blocks). -/
def PLAYER_HEIGHT : ℚ := 9/5

/-- Vertical state of the viewpoint: `camera.position.y`,
`velocity.current.y`, and the grounded flag. -/
structure PlayerVert where
  y : ℚ
  vy : ℚ
  grounded : Bool
deriving DecidableEq, Repr

/-- One tick over terrain of height `h` with frame delta `dt`: above
`h + 1.8` gravity accelerates the fall and the (updated) vertical velocity
displaces the camera; at or below it the camera snaps to `h + 1.8`, vertical
velocity zeroes, and the viewpoint is grounded (the subsequent displacement
adds the zeroed velocity). -/
def playerStep (h dt : ℚ) (s : PlayerVert) : PlayerVert :=
  let terrainHeight := h + PLAYER_HEIGHT
  if s.y > terrainHeight then
    let vy := s.vy - GRAVITY * dt
    ⟨s.y + vy, vy, false⟩
  else
    ⟨terrainHeight, 0, true⟩

section PlayerLemmas

lemma playerStep_rest (h dt : ℚ) (s : PlayerVert) (hs : s.y ≤ h + PLAYER_HEIGHT) :
    playerStep h dt s = ⟨h + PLAYER_HEIGHT, 0, true⟩ := by
  unfold playerStep
  rw [if_neg (not_lt.mpr hs)]

lemma playerStep_airborne (h dt : ℚ) (s : PlayerVert) (hs : s.y > h + PLAYER_HEIGHT) :
    playerStep h dt s = ⟨s.y + (s.vy - GRAVITY * dt), s.vy - GRAVITY * dt, false⟩ := by
  unfold playerStep
  rw [if_pos hs]

lemma playerStep_reaches_ground (h y0 vy0 dt : ℚ) (hdt : 0 < dt) (hvy : vy0 ≤ 0) :
    ∃ k, ((playerStep h dt)^[k] ⟨y0, vy0, false⟩).y ≤ h + PLAYER_HEIGHT := by
  by_contra hall
  push_neg at hall
  have hg : (0 : ℚ) < GRAVITY * dt := by
    unfold GRAVITY
    positivity
  have hstep : ∀ k, (playerStep h dt)^[k + 1] ⟨y0, vy0, false⟩ =
      ⟨((playerStep h dt)^[k] ⟨y0, vy0, false⟩).y +
        (((playerStep h dt)^[k] ⟨y0, vy0, false⟩).vy - GRAVITY * dt),
       ((playerStep h dt)^[k] ⟨y0, vy0, false⟩).vy - GRAVITY * dt, false⟩ := by
    intro k
    rw [Function.iterate_succ_apply']
    exact playerStep_airborne h dt _ (hall k)
  have hvyk : ∀ k, ((playerStep h dt)^[k] ⟨y0, vy0, false⟩).vy =
      vy0 - k * (GRAVITY * dt) := by
    intro k
    induction k with
    | zero => simp
    | succ n ih =>
      rw [hstep n]
      push_cast
      rw [ih]
      ring
  have hyk : ∀ k, ((playerStep h dt)^[k] ⟨y0, vy0, false⟩).y ≤
      y0 - k * (GRAVITY * dt) := by
    intro k
    induction k with
    | zero => simp
    | succ n ih =>
      rw [hstep n, hvyk n]
      have hn : (0 : ℚ) ≤ (n : ℚ) := by positivity
      push_cast
      nlinarith
  obtain ⟨k, hk⟩ := exists_nat_gt ((y0 - (h + PLAYER_HEIGHT)) / (GRAVITY * dt))
  rw [div_lt_iff hg] at hk
  have h1 := hall k
  have h2 := hyk k
  nlinarith

end PlayerLemmas

/-- C9: over terrain of constant height `h`, a viewpoint descending through
the air (nonpositive vertical velocity) is brought to rest after finitely
many ticks at exactly `h + 1.8` with the grounded flag set, and from that
tick on it stays at `h + 1.8` — in particular its height never drops below
`h + 1.8` again. -/
theorem c9_descent_comes_to_rest (h y0 vy0 dt : ℚ) (hdt : 0 < dt) (hvy : vy0 ≤ 0) :
    ∃ n, ∀ m, n ≤ m →
      (playerStep h dt)^[m] ⟨y0, vy0, false⟩ = ⟨h + PLAYER_HEIGHT, 0, true⟩ := by
  obtain ⟨k, hk⟩ := playerStep_reaches_ground h y0 vy0 dt hdt hvy
  refine ⟨k + 1, fun m hm => ?_⟩
  obtain ⟨j, rfl⟩ : ∃ j, m = (k + 1) + j := ⟨m - (k + 1), by omega⟩
  induction j with
  | zero =>
    rw [Nat.add_zero, Function.iterate_succ_apply']
    exact playerStep_rest h dt _ hk
  | succ i ih =>
    have hik : (k + 1) + i ≥ k + 1 := by omega
    rw [show (k + 1) + (i + 1) = ((k + 1) + i) + 1 from by omega,
      Function.iterate_succ_apply', ih hik]
    exact playerStep_rest h dt _ (le_refl _)

/-- Witness for C9: flat terrain of height 10, viewpoint starting at y = 15
with zero vertical velocity, 100 ms frames. -/
theorem c9_descent_comes_to_rest_witness :
    ∃ n, ∀ m, n ≤ m →
      (playerStep 10 (1/10))^[m] ⟨15, 0, false⟩ = ⟨10 + PLAYER_HEIGHT, 0, true⟩ :=
  c9_descent_comes_to_rest 10 15 0 (1/10) (by norm_num) (by norm_num)
